import Mathlib

/-!
Verification of the USI17 V22.1 translation orchestration layer.

Shallow embedding of the Python sources into Lean 4:
texts are `List Char`, Python floats are modelled as `ℚ`,
fallible operations return `Except` values, and the external
language-model providers are modelled as explicit oracle parameters.

Embedded modules:
* `rtf_processor.py`   — tag detection / masking / restoration / validation
* `multi_model_translator.py` — cost tracking, translation memory, failover
* `v22_1_translator.py` — multi-target orchestration and response parsing
* `agent_63b/c/d`      — similarity, confidence, review flagging
-/

namespace USI17

/-! ## Generic character and list utilities -/

/-- Python `\s` (ASCII range): space, tab, newline, carriage return,
vertical tab, form feed. -/
def pyWhite (c : Char) : Bool :=
  c = ' ' || c = '\t' || c = '\n' || c = '\x0d' || c = '\x0b' || c = '\x0c'

/-- ASCII lowercase letter, Python regex `[a-z]`. -/
def isLowerAZ (c : Char) : Bool := 'a' ≤ c && c ≤ 'z'

/-- ASCII lowercasing, Python `str.lower` restricted to ASCII input. -/
def pyLowerChar (c : Char) : Char :=
  if 'A' ≤ c && c ≤ 'Z' then Char.ofNat (c.toNat + 32) else c

/-- Python `str.lower` on a text. -/
def pyLower (s : List Char) : List Char := s.map pyLowerChar

/-- Python `str.strip()`: remove leading and trailing whitespace. -/
def pyStrip (s : List Char) : List Char :=
  ((s.dropWhile pyWhite).reverse.dropWhile pyWhite).reverse

/-- Python `str.split('\t')`: split at every tab, keeping empty fields. -/
def splitTab : List Char → List (List Char)
  | [] => [[]]
  | c :: rest =>
    let r := splitTab rest
    if c = '\t' then [] :: r
    else match r with
      | [] => [[c]]
      | f :: fs => (c :: f) :: fs

/-- Worker of `splitWs`; each round consumes one word and the
whitespace after it.  The fuel (always the remaining length at the
first call) makes the recursion structural; the fuel-exhaustion case is
unreachable because every round strictly shortens the text. -/
def splitWsGo : Nat → List Char → List (List Char)
  | _, [] => []
  | 0, _ :: _ => []
  | fuel + 1, c :: rest =>
    let w := (c :: rest).takeWhile (fun d => !pyWhite d)
    let r := (c :: rest).dropWhile (fun d => !pyWhite d)
    w :: splitWsGo fuel (r.dropWhile pyWhite)

/-- Python `str.split()` with no argument: split on whitespace runs,
producing no empty fields. -/
def splitWs (s : List Char) : List (List Char) :=
  splitWsGo s.length (s.dropWhile pyWhite)

/-- Worker of `replaceAll`.  The fuel (the text length at the first
call) makes the recursion structural; every round strictly shortens the
text (the pattern is nonempty when a replacement fires), so the
exhaustion case is unreachable. -/
def replaceAllFuel : Nat → List Char → List Char → List Char → List Char
  | _, [], _, _ => []
  | 0, s, _, _ => s
  | fuel + 1, c :: s, pat, rep =>
    if pat ≠ [] ∧ pat.isPrefixOf (c :: s) then
      rep ++ replaceAllFuel fuel ((c :: s).drop pat.length) pat rep
    else
      c :: replaceAllFuel fuel s pat rep

/-- Python `str.replace(pat, rep)`: replace every (leftmost,
non-overlapping) occurrence of `pat` by `rep`.  For the empty pattern our
callers never hit that case; the text is returned unchanged there. -/
def replaceAll (s pat rep : List Char) : List Char :=
  replaceAllFuel s.length s pat rep

/-- Boolean substring test: does `pat` occur somewhere in `s`?
(Python `pat in s`.) -/
def containsSeq (s pat : List Char) : Bool :=
  match s with
  | [] => pat.isEmpty
  | _ :: t => pat.isPrefixOf s || containsSeq t pat

/-- Decimal digit as a character. -/
def digitChar (d : Nat) : Char :=
  match d with
  | 0 => '0' | 1 => '1' | 2 => '2' | 3 => '3' | 4 => '4'
  | 5 => '5' | 6 => '6' | 7 => '7' | 8 => '8' | _ => '9'

/-- Worker of `natDigits`; the fuel (`n + 1` at the first call) makes
the recursion structural and is always sufficient since `n / 10 < n`
for `n ≥ 10`. -/
def natDigitsFuel : Nat → Nat → List Char
  | 0, _ => []
  | fuel + 1, n =>
    if n < 10 then [digitChar n]
    else natDigitsFuel fuel (n / 10) ++ [digitChar (n % 10)]

/-- Decimal digit string of a natural number, most significant first. -/
def natDigits (n : Nat) : List Char := natDigitsFuel (n + 1) n

/-- Python `f-string` format `03d`: decimal, left padded with zeros to
width three. -/
def pad3 (n : Nat) : List Char :=
  let ds := natDigits n
  List.replicate (3 - ds.length) '0' ++ ds

end USI17

namespace RTF
open USI17

/-! ## Embedding of `rtf_processor.py`

`RTFProcessor.TAG_PATTERNS` is a dict of seven regular expressions.  Each
is embedded as a deterministic matcher on the remaining suffix of the
text, returning the matched span (these particular regexes backtrack
deterministically, so a functional matcher is faithful). -/

/-- The seven pattern families of `RTFProcessor.TAG_PATTERNS`, in dict
order. -/
inductive TagType where
  | indesign_standard   -- `<[^>]+>`
  | indesign_closing    -- `</[^>]+>`
  | memoq_hybrid_open   -- `\[uf[^\]]*\}`
  | memoq_hybrid_close  -- `\{uf\]`
  | wordfast_tag        -- `\{[0-9]+\}`
  | trados_tag          -- `<[a-z]+[0-9]*\s*/?>`
  | placeholder         -- `⟦TAG_\d+⟧`
deriving DecidableEq, Repr

/-- Matcher for `<[^>]+>`: `<`, one or more non-`>` characters (greedy,
ends at the first `>`), then `>`. -/
def matchIndesignStd : List Char → Option (List Char)
  | '<' :: rest =>
    match rest.takeWhile (fun c => c ≠ '>'), rest.dropWhile (fun c => c ≠ '>') with
    | [], _ => none
    | body, '>' :: _ => some ('<' :: (body ++ ['>']))
    | _, _ => none
  | _ => none

/-- Matcher for `</[^>]+>`. -/
def matchIndesignClosing : List Char → Option (List Char)
  | '<' :: '/' :: rest =>
    match rest.takeWhile (fun c => c ≠ '>'), rest.dropWhile (fun c => c ≠ '>') with
    | [], _ => none
    | body, '>' :: _ => some ('<' :: '/' :: (body ++ ['>']))
    | _, _ => none
  | _ => none

/-- Index of the last `'}'` in a list, if any. -/
def lastBraceIdx : List Char → Option Nat
  | [] => none
  | c :: t =>
    match lastBraceIdx t with
    | some k => some (k + 1)
    | none => if c = '}' then some 0 else none

/-- Matcher for `\[uf[^\]]*\}`: literal `[uf`, then greedy non-`]`
characters; backtracking makes the match end at the last `'}'` occurring
before the first `']'`. -/
def matchMemoqOpen : List Char → Option (List Char)
  | '[' :: 'u' :: 'f' :: rest =>
    match lastBraceIdx (rest.takeWhile (fun c => c ≠ ']')) with
    | some k =>
      some ('[' :: 'u' :: 'f' :: ((rest.takeWhile (fun c => c ≠ ']')).take k ++ ['}']))
    | none => none
  | _ => none

/-- Matcher for the literal `\{uf\]`. -/
def matchMemoqClose : List Char → Option (List Char)
  | '{' :: 'u' :: 'f' :: ']' :: _ => some ['{', 'u', 'f', ']']
  | _ => none

/-- Matcher for `\{[0-9]+\}`. -/
def matchWordfast : List Char → Option (List Char)
  | '{' :: rest =>
    match rest.takeWhile Char.isDigit, rest.dropWhile Char.isDigit with
    | [], _ => none
    | ds, '}' :: _ => some ('{' :: (ds ++ ['}']))
    | _, _ => none
  | _ => none

/-- Matcher for `<[a-z]+[0-9]*\s*/?>`: the character classes are
pairwise disjoint, so greedy matching is runs of each class followed by
an optional `/` and a mandatory `>`. -/
def matchTrados : List Char → Option (List Char)
  | '<' :: rest =>
    match rest.takeWhile isLowerAZ, rest.dropWhile isLowerAZ with
    | [], _ => none
    | ls, r1 =>
      match (r1.dropWhile Char.isDigit).dropWhile pyWhite with
      | '/' :: '>' :: _ =>
        some ('<' :: (ls ++ r1.takeWhile Char.isDigit
          ++ (r1.dropWhile Char.isDigit).takeWhile pyWhite ++ ['/', '>']))
      | '>' :: _ =>
        some ('<' :: (ls ++ r1.takeWhile Char.isDigit
          ++ (r1.dropWhile Char.isDigit).takeWhile pyWhite ++ ['>']))
      | _ => none
  | _ => none

/-- Matcher for the codec's own placeholders `⟦TAG_\d+⟧`. -/
def matchPlaceholder : List Char → Option (List Char)
  | '⟦' :: 'T' :: 'A' :: 'G' :: '_' :: rest =>
    match rest.takeWhile Char.isDigit, rest.dropWhile Char.isDigit with
    | [], _ => none
    | ds, '⟧' :: _ => some ('⟦' :: 'T' :: 'A' :: 'G' :: '_' :: (ds ++ ['⟧']))
    | _, _ => none
  | _ => none

/-- Worker for `re.finditer`: scan left to right; at a match, record
`(start, span)` and resume after it (matches of one pattern never
overlap); otherwise advance one character.  The fuel (the text length
at the first call) makes the recursion structural; every step strictly
shortens the text, so exhaustion is unreachable. -/
def findIterFuel (m : List Char → Option (List Char)) :
    Nat → List Char → Nat → List (Nat × List Char)
  | _, [], _ => []
  | 0, _ :: _, _ => []
  | fuel + 1, c :: s, p =>
    match m (c :: s) with
    | some g =>
      if g.length = 0 then (p, g) :: findIterFuel m fuel s (p + 1)
      else (p, g) :: findIterFuel m fuel ((c :: s).drop g.length) (p + g.length)
    | none => findIterFuel m fuel s (p + 1)

/-- `re.finditer` over a text starting at absolute offset `p`. -/
def findIter (m : List Char → Option (List Char)) (s : List Char) (p : Nat) :
    List (Nat × List Char) :=
  findIterFuel m s.length s p

/-- `TAG_PATTERNS` in Python dict order. -/
def tagPatterns : List (TagType × (List Char → Option (List Char))) :=
  [(TagType.indesign_standard, matchIndesignStd),
   (TagType.indesign_closing, matchIndesignClosing),
   (TagType.memoq_hybrid_open, matchMemoqOpen),
   (TagType.memoq_hybrid_close, matchMemoqClose),
   (TagType.wordfast_tag, matchWordfast),
   (TagType.trados_tag, matchTrados),
   (TagType.placeholder, matchPlaceholder)]

/-- One detected tag: the dict
`{'type', 'original', 'start', 'end', 'length'}` built by
`detect_tags` (`end` is a Lean keyword, so the field is `stop`;
`length` is `original.length`). -/
structure Tag where
  type : TagType
  original : List Char
  start : Nat
  stop : Nat
deriving DecidableEq, Repr

/-- Stable insertion into a list sorted by `start` (`list.sort` in
Python is stable: an element inserted from the left goes before
equal keys). -/
def insertByStart (t : Tag) : List Tag → List Tag
  | [] => [t]
  | h :: r => if h.start < t.start then h :: insertByStart t r else t :: h :: r

/-- Stable sort by `start`, matching `detected_tags.sort(key=...)`. -/
def sortByStart : List Tag → List Tag
  | [] => []
  | h :: r => insertByStart h (sortByStart r)

/-- `RTFProcessor.detect_tags`: run every pattern over the text, collect
all matches, and sort them (stably) by start offset. -/
def detect_tags (text : List Char) : List Tag :=
  sortByStart
    ((tagPatterns.map fun pm =>
      (findIter pm.2 text 0).map fun pg =>
        Tag.mk pm.1 pg.2 pg.1 (pg.1 + pg.2.length)).flatten)

/-- One entry of the tag-restoration map built by
`extract_tags_with_placeholders`. -/
structure TagMapping where
  id : List Char
  placeholder : List Char
  original : List Char
  type : TagType
  position_in_source : Nat
deriving DecidableEq, Repr

/-- `TaggedSegment` dataclass. -/
structure TaggedSegment where
  original_text : List Char
  text_with_placeholders : List Char
  tags : List TagMapping
deriving DecidableEq, Repr

/-- Placeholder id text `TAG_{n:03d}`. -/
def idString (n : Nat) : List Char := 'T' :: 'A' :: 'G' :: '_' :: pad3 n

/-- Placeholder text `⟦TAG_{n:03d}⟧`. -/
def phString (n : Nat) : List Char :=
  '⟦' :: 'T' :: 'A' :: 'G' :: '_' :: (pad3 n ++ ['⟧'])

/-- The replacement loop of `extract_tags_with_placeholders`: tags are
processed in reverse position order; each replacement splices a fresh
placeholder over the span `[start, stop)` of the working text, and the
mapping is pushed on the front of the accumulator (so the returned list
is in source order). -/
def maskRev : List Tag → Nat → List Char → Nat × List Char × List TagMapping
  | [], c, twp => (c, twp, [])
  | t :: rest, c, twp =>
    let ph := phString c
    let twp' := twp.take t.start ++ ph ++ twp.drop t.stop
    let out := maskRev rest (c + 1) twp'
    (out.1, out.2.1, out.2.2 ++ [TagMapping.mk (idString c) ph t.original t.type t.start])

/-- `RTFProcessor.extract_tags_with_placeholders`.  The processor state
is its `tag_counter`; the function returns the new counter and the
`TaggedSegment`. -/
def extract_tags_with_placeholders (counter : Nat) (text : List Char) :
    Nat × TaggedSegment :=
  let detected := detect_tags text
  if detected = [] then (counter, TaggedSegment.mk text text [])
  else
    let out := maskRev detected.reverse counter text
    (out.1, TaggedSegment.mk text out.2.1 out.2.2)

/-- `RTFProcessor.restore_tags`: replace every placeholder by its
original tag, in mapping order.  (The trailing leak check only prints a
warning and does not change the returned text.) -/
def restore_tags (translated : List Char) (tagMappings : List TagMapping) : List Char :=
  tagMappings.foldl (fun r m => replaceAll r m.placeholder m.original) translated

/-- `RTFProcessor.validate_rtf_structure` (LAW_13): tag count, type
sequence, and literal equality for all but the
`memoq_hybrid_open`/`trados_tag` families. -/
def validate_rtf_structure (sourceRtf targetRtf : List Char) : Bool :=
  let sourceTags := detect_tags sourceRtf
  let targetTags := detect_tags targetRtf
  if sourceTags.length ≠ targetTags.length then false
  else if sourceTags.map Tag.type ≠ targetTags.map Tag.type then false
  else (sourceTags.zip targetTags).all fun st =>
    st.1.original == st.2.original
      || st.1.type == TagType.memoq_hybrid_open
      || st.1.type == TagType.trados_tag

/-! Support definitions for the round-trip analysis. -/

/-- The slice of `text` covering positions `[a, b)`. -/
def slice (text : List Char) (a b : Nat) : List Char := (text.take b).drop a

/-- `pat` occurs nowhere in `s`. -/
def NoOccur (pat s : List Char) : Prop := ∀ i, ¬ pat <+: s.drop i

/-- A tag list is well formed over `text` when every tag's recorded
span is a real, nonempty slice of `text`. -/
def TagsWF (text : List Char) (L : List Tag) : Prop :=
  ∀ t ∈ L, t.start < t.stop ∧ t.stop ≤ text.length ∧ t.original = slice text t.start t.stop

/-- Expected shape of the masked (or restored) text for tags `T` in
source order over the window `[prev, b)` of `text`: alternating
inter-tag segments and `f id tag` items, placeholder ids decreasing
from `c + T.length - 1` down to `c`. -/
def assembleTags (text : List Char) (f : Nat → Tag → List Char) :
    List Tag → Nat → Nat → Nat → List Char
  | [], _, prev, b => slice text prev b
  | t :: rest, c, prev, b =>
    slice text prev t.start ++ f (c + rest.length) t
      ++ assembleTags text f rest c t.stop b

/-- Expected mapping list for tags `T` in source order with ids
decreasing from `c + T.length - 1`. -/
def mapsOf : List Tag → Nat → List TagMapping
  | [], _ => []
  | t :: rest, c =>
    TagMapping.mk (idString (c + rest.length)) (phString (c + rest.length))
      t.original t.type t.start :: mapsOf rest c

/-- Read a digit string back into a number (left inverse of `pad3`). -/
def readNum (s : List Char) : Nat :=
  s.foldl (fun acc c => 10 * acc + (c.toNat - 48)) 0

end RTF

namespace MMT
open USI17

/-! ## Embedding of `multi_model_translator.py`

Python floats are modelled as `ℚ`.  The three remote providers are
external capabilities; a call outcome is an explicit oracle value.
The md5 cache key of `TranslationMemory.get_key` is modelled by the
`(source_text, target_lang)` pair itself (md5 is treated as
collision-free). -/

/-- The three providers, in the cascade's priority order. -/
inductive MKey where
  | grok | gemini | claude
deriving DecidableEq, Repr

/-- One row of `CostTracker.PRICING` (USD per 1M tokens). -/
structure Pricing where
  input : ℚ
  output : ℚ
  cache_read : ℚ
deriving DecidableEq, Repr

/-- `CostTracker.PRICING`. -/
def PRICING : MKey → Pricing
  | MKey.grok => ⟨0.20, 0.50, 0.05⟩
  | MKey.gemini => ⟨0.50, 3.00, 0.05⟩
  | MKey.claude => ⟨3.00, 15.00, 0.30⟩

/-- `CostTracker.USD_TO_JPY`. -/
def USD_TO_JPY : ℚ := 152

/-- One provider's entry of `CostTracker.token_usage`. -/
structure TokenUsage where
  input : Nat
  output : Nat
  cached : Nat
deriving DecidableEq, Repr

/-- `CostTracker` state: budget ceiling, per-provider and total USD
costs, token usage and call counts. -/
structure CostTracker where
  max_budget_jpy : ℚ
  costs_grok : ℚ
  costs_gemini : ℚ
  costs_claude : ℚ
  costs_total : ℚ
  usage_grok : TokenUsage
  usage_gemini : TokenUsage
  usage_claude : TokenUsage
  calls_grok : Nat
  calls_gemini : Nat
  calls_claude : Nat
deriving DecidableEq, Repr

/-- `CostTracker.__init__`. -/
def CostTracker.init (maxBudgetJpy : ℚ) : CostTracker :=
  ⟨maxBudgetJpy, 0, 0, 0, 0, ⟨0, 0, 0⟩, ⟨0, 0, 0⟩, ⟨0, 0, 0⟩, 0, 0, 0⟩

/-- The `if 'grok' in model.lower(): ... elif ...` dispatch of
`CostTracker.add_usage`. -/
def modelKeyOf (model : List Char) : Option MKey :=
  if containsSeq (pyLower model) "grok".toList then some MKey.grok
  else if containsSeq (pyLower model) "gemini".toList then some MKey.gemini
  else if containsSeq (pyLower model) "claude".toList then some MKey.claude
  else none

/-- Cost in USD of one call per `CostTracker.add_usage`. -/
def callCost (k : MKey) (inTok outTok cachedTok : Nat) : ℚ :=
  let p := PRICING k
  (inTok : ℚ) / 1000000 * p.input + (outTok : ℚ) / 1000000 * p.output
    + (cachedTok : ℚ) / 1000000 * p.cache_read

/-- `CostTracker.add_usage`. -/
def CostTracker.add_usage (ct : CostTracker) (model : List Char)
    (inTok outTok cachedTok : Nat) : CostTracker :=
  match modelKeyOf model with
  | none => ct
  | some k =>
    let c := callCost k inTok outTok cachedTok
    let ct := { ct with costs_total := ct.costs_total + c }
    match k with
    | MKey.grok =>
      { ct with costs_grok := ct.costs_grok + c,
                usage_grok := ⟨ct.usage_grok.input + inTok,
                  ct.usage_grok.output + outTok, ct.usage_grok.cached + cachedTok⟩,
                calls_grok := ct.calls_grok + 1 }
    | MKey.gemini =>
      { ct with costs_gemini := ct.costs_gemini + c,
                usage_gemini := ⟨ct.usage_gemini.input + inTok,
                  ct.usage_gemini.output + outTok, ct.usage_gemini.cached + cachedTok⟩,
                calls_gemini := ct.calls_gemini + 1 }
    | MKey.claude =>
      { ct with costs_claude := ct.costs_claude + c,
                usage_claude := ⟨ct.usage_claude.input + inTok,
                  ct.usage_claude.output + outTok, ct.usage_claude.cached + cachedTok⟩,
                calls_claude := ct.calls_claude + 1 }

/-- `CostTracker.get_cost_jpy()['total']`. -/
def CostTracker.totalJPY (ct : CostTracker) : ℚ := ct.costs_total * USD_TO_JPY

/-- `CostTracker.can_afford`. -/
def CostTracker.can_afford (ct : CostTracker) (estimatedCostJpy : ℚ) : Bool :=
  ct.costs_total * USD_TO_JPY + estimatedCostJpy ≤ ct.max_budget_jpy

/-- One `TranslationMemory` entry (the iso-timestamp strings
`created`/`last_used` are wall-clock environment values and are
omitted). -/
structure TMEntry where
  source_snip : List Char
  translation : List Char
  target_lang : List Char
  model : List Char
  use_count : Nat
deriving DecidableEq, Repr

/-- `TranslationMemory` state (`file_path` persistence is modelled as
the in-memory association list; `save` failures only print). -/
structure TranslationMemory where
  memory : List ((List Char × List Char) × TMEntry)
  hits : Nat
  misses : Nat
deriving DecidableEq, Repr

/-- Association-list lookup for the md5-keyed dict. -/
def tmFind (mem : List ((List Char × List Char) × TMEntry))
    (k : List Char × List Char) : Option TMEntry :=
  (mem.find? (fun e => e.1 == k)).map (fun e => e.2)

/-- `TranslationMemory.get`: on a hit bump the entry's use count and the
global hit counter and return the stored translation; on a miss bump the
miss counter. -/
def TranslationMemory.get (tm : TranslationMemory) (sourceText targetLang : List Char) :
    Option (List Char) × TranslationMemory :=
  let k := (sourceText, targetLang)
  match tmFind tm.memory k with
  | some e =>
    (some e.translation,
     { tm with hits := tm.hits + 1,
               memory := tm.memory.map fun kv =>
                 if kv.1 == k then (kv.1, { kv.2 with use_count := kv.2.use_count + 1 })
                 else kv })
  | none => (none, { tm with misses := tm.misses + 1 })

/-- `TranslationMemory.set`: create or overwrite the full entry
(Python dict assignment keeps the position of an existing key and
appends a new one). -/
def TranslationMemory.set (tm : TranslationMemory)
    (sourceText targetLang translation model : List Char) : TranslationMemory :=
  let k := (sourceText, targetLang)
  let e : TMEntry := ⟨sourceText.take 100, translation, targetLang, model, 1⟩
  if (tmFind tm.memory k).isSome then
    { tm with memory := tm.memory.map fun kv => if kv.1 == k then (kv.1, e) else kv }
  else
    { tm with memory := tm.memory ++ [(k, e)] }

/-- `MultiModelTranslator.stats`. -/
structure Stats where
  total_translations : Nat
  tm_hits : Nat
  grok_used : Nat
  gemini_used : Nat
  claude_used : Nat
  errors : Nat
deriving DecidableEq, Repr

/-- `MultiModelTranslator` state. -/
structure Translator where
  cost_tracker : CostTracker
  tm : TranslationMemory
  grok_available : Bool
  gemini_available : Bool
  claude_available : Bool
  stats : Stats
deriving DecidableEq, Repr

/-- Token usage as reported by a provider response. -/
structure Usage where
  input_tokens : Nat
  output_tokens : Nat
  cached_tokens : Nat
deriving DecidableEq, Repr

/-- A provider call outcome: the external `translate_with_*` calls
either return `(translation, usage)` or raise. -/
def Outcome := Except (List Char) (List Char × Usage)

/-- Python-side name of a provider (the `model_name` strings of the
cascade loop). -/
def mkeyName : MKey → List Char
  | MKey.grok => "grok".toList
  | MKey.gemini => "gemini".toList
  | MKey.claude => "claude".toList

/-- The result dict of `MultiModelTranslator.translate`. -/
structure TransResult where
  translation : Option (List Char)
  model_used : List Char
  cost_jpy : ℚ
  success : Bool
  error : Option (List Char)
  usage : Option Usage
deriving DecidableEq, Repr

/-- `models_to_try`: availability-filtered provider list in priority
order Grok → Gemini → Claude. -/
def modelsToTry (t : Translator) : List MKey :=
  (if t.grok_available then [MKey.grok] else [])
    ++ (if t.gemini_available then [MKey.gemini] else [])
    ++ (if t.claude_available then [MKey.claude] else [])

/-- Bump the `stats[f'{model_name}_used']` counter. -/
def Stats.bumpUsed (s : Stats) : MKey → Stats
  | MKey.grok => { s with grok_used := s.grok_used + 1 }
  | MKey.gemini => { s with gemini_used := s.gemini_used + 1 }
  | MKey.claude => { s with claude_used := s.claude_used + 1 }

/-- The provider loop of `MultiModelTranslator.translate`: try each
model in order; on success record cost, store in TM, bump stats and
return; on failure remember the error and continue.  The third
component logs every dispatched provider call with the text and target
it received. -/
def translateGo (text targetLang : List Char)
    (oracle : MKey → Outcome) :
    List MKey → Translator → Option (List Char) →
    List (MKey × List Char × List Char) →
    Translator × TransResult × List (MKey × List Char × List Char)
  | [], t, lastError, log =>
    ({ t with stats := { t.stats with errors := t.stats.errors + 1 } },
     ⟨none, "none".toList, 0, false,
      some (lastError.getD "All models unavailable".toList), none⟩,
     log)
  | k :: ks, t, lastError, log =>
    match oracle k with
    | Except.error e => translateGo text targetLang oracle ks t (some e)
        (log ++ [(k, text, targetLang)])
    | Except.ok (tr, u) =>
      let ct := t.cost_tracker.add_usage (mkeyName k)
        u.input_tokens u.output_tokens u.cached_tokens
      let tm := t.tm.set text targetLang tr (mkeyName k)
      ({ t with cost_tracker := ct, tm := tm, stats := t.stats.bumpUsed k },
       ⟨some tr, mkeyName k, ct.totalJPY, true, none, some u⟩,
       log ++ [(k, text, targetLang)])

/-- `MultiModelTranslator.translate`: budget guard (flat ¥100
estimate), then translation-memory lookup, then the provider cascade.
Besides the updated state and result dict it returns the log of
dispatched provider calls. -/
def translate (t : Translator) (oracle : MKey → Outcome)
    (text targetLang : List Char) :
    Translator × TransResult × List (MKey × List Char × List Char) :=
  let t := { t with stats :=
    { t.stats with total_translations := t.stats.total_translations + 1 } }
  if ¬ t.cost_tracker.can_afford 100 then
    (t, ⟨none, "none".toList, 0, false, some "Budget limit reached".toList, none⟩, [])
  else
    match t.tm.get text targetLang with
    | (some cached, tm') =>
      ({ t with tm := tm',
                stats := { t.stats with tm_hits := t.stats.tm_hits + 1 } },
       ⟨some cached, "TM (cached)".toList, 0, true, none, none⟩, [])
    | (none, tm') =>
      translateGo text targetLang oracle (modelsToTry t) { t with tm := tm' } none []

/-- One `translate` invocation: its oracle, input text and target. -/
def CallSpec := (MKey → Outcome) × List Char × List Char

/-- Run a sequence of `translate` calls against one translator state. -/
def runTranslate (t : Translator) (calls : List CallSpec) : Translator :=
  calls.foldl (fun t c => (translate t c.1 c.2.1 c.2.2).1) t

end MMT

namespace Agents63
open USI17

/-! ## Embedding of `agent_63b/c/d` (similarity, confidence, review) -/

/-- Result dict of `Agent_63B_Similarity_Calculator.calculate`. -/
structure SimilarityResult where
  similarity_score : ℚ
  word_overlap : Nat
  total_unique_words : Nat
  words_text1 : Nat
  words_text2 : Nat
deriving DecidableEq, Repr

/-- `set(text.lower().split())`: distinct lowercased whitespace
tokens. -/
def wordSet (text : List Char) : List (List Char) :=
  (splitWs (pyLower text)).dedup

/-- `Agent_63B_Similarity_Calculator.calculate`: Jaccard similarity of
the two token sets (`0` when the union is empty). -/
def calculate (text1 text2 : List Char) : SimilarityResult :=
  let words1 := wordSet text1
  let words2 := wordSet text2
  let intersection := (words1.filter (fun w => w ∈ words2)).length
  let union := (words1 ++ words2.filter (fun w => w ∉ words1)).length
  let similarity_score : ℚ := if union > 0 then (intersection : ℚ) / union else 0
  ⟨similarity_score, intersection, union, words1.length, words2.length⟩

/-- `Agent_63C_Confidence_Assessor.HIGH_CONFIDENCE_THRESHOLD`. -/
def HIGH_CONFIDENCE_THRESHOLD : ℚ := 0.90

/-- `Agent_63C_Confidence_Assessor.MEDIUM_CONFIDENCE_THRESHOLD`. -/
def MEDIUM_CONFIDENCE_THRESHOLD : ℚ := 0.85

/-- Result dict of `Agent_63C_Confidence_Assessor.assess`. -/
structure ConfidenceResult where
  confidence : String
  confidence_percentage : ℚ
  quality_assessment : String
  similarity_score : ℚ
deriving DecidableEq, Repr

/-- `Agent_63C_Confidence_Assessor.assess`. -/
def assess (similarity_score : ℚ) : ConfidenceResult :=
  if HIGH_CONFIDENCE_THRESHOLD ≤ similarity_score then
    ⟨"high", similarity_score * 100, "Excellent translation quality",
     similarity_score⟩
  else if MEDIUM_CONFIDENCE_THRESHOLD ≤ similarity_score then
    ⟨"medium", similarity_score * 100,
     "Good translation quality with minor variations", similarity_score⟩
  else
    ⟨"low", similarity_score * 100,
     "Translation may have significant semantic drift", similarity_score⟩

/-- `Agent_63D_Review_Flagger.REVIEW_THRESHOLD`. -/
def REVIEW_THRESHOLD : ℚ := 0.85

/-- Result dict of `Agent_63D_Review_Flagger.should_flag`. -/
structure FlagResult where
  flag_for_review : Bool
  reason : String
  priority : String
  recommended_action : String
deriving DecidableEq, Repr

/-- `Agent_63D_Review_Flagger.should_flag` (the Python `reason` strings
interpolate the score with `:.2f`; the fixed descriptive part is
kept).  The `confidence_level` argument is accepted and, as in the
source, not used by the decision. -/
def should_flag (confidence_level : String) (similarity_score : ℚ) : FlagResult :=
  let _ := confidence_level
  let flag := similarity_score < REVIEW_THRESHOLD
  if flag then
    if similarity_score < 0.70 then
      ⟨true, "Very low similarity - significant semantic drift detected", "high",
       "IMMEDIATE REVIEW REQUIRED: Manual review and retranslation recommended"⟩
    else if similarity_score < 0.80 then
      ⟨true, "Low similarity - potential semantic issues", "medium",
       "Review recommended: Check for accuracy and completeness"⟩
    else
      ⟨true, "Below threshold similarity - minor variations detected", "low",
       "Optional review: Translation likely acceptable but verify key terms"⟩
  else
    ⟨false, "Similarity within acceptable range", "none",
     "No review needed: Translation has high confidence"⟩

end Agents63

namespace V22
open USI17

/-! ## Embedding of `v22_1_translator.py`

The Agent 0C simplifier and the provider back ends are external
effects from the point of view of `USI17_V22_1_Translator.translate`;
they enter the embedding as explicit parameters (`simplify`, provider
outcomes).  The Agent 63 back-translation validator is NOT a pure
external effect: its back-translator recursively calls `translate` on
the same translator instance (`agent_63a_back_translator.py` line 44),
so one per-language quality check may add provider cost to
`total_cost`, bump counters and write TM entries.  It therefore enters
the embedding as a state-transforming oracle `backVal` consuming and
returning the translator state.  A
provider outcome bundles the API response already run through
`_parse_multi_language_response` exactly as `_translate_with_gemini`
and `_translate_with_grok` do; `_translate_with_claude`
unconditionally raises.  The md5 TM key is modelled by the
`(source, target)` pair (md5 treated as collision-free). -/

/-- One entry of `v22_1_translator.TranslationMemory.memory`
(iso-timestamps omitted as wall-clock values). -/
structure TMEntryV where
  source_snip : List Char
  translation : List Char
  target_lang : List Char
  model : List Char
  use_count : Nat
  cost_saved : ℚ
deriving DecidableEq, Repr

/-- `v22_1_translator.TranslationMemory` state. -/
structure TMV where
  memory : List ((List Char × List Char) × TMEntryV)
  hits : Nat
  misses : Nat
deriving DecidableEq, Repr

/-- Association-list lookup for the md5-keyed dict. -/
def tmvFind (mem : List ((List Char × List Char) × TMEntryV))
    (k : List Char × List Char) : Option TMEntryV :=
  (mem.find? (fun e => e.1 == k)).map (fun e => e.2)

/-- `TranslationMemory.get` (v22_1 flavour): a hit bumps the entry's
use count and returns the (bumped) entry dict. -/
def TMV.get (tm : TMV) (sourceText targetLang : List Char) :
    Option TMEntryV × TMV :=
  let k := (sourceText, targetLang)
  match tmvFind tm.memory k with
  | some e =>
    let e' := { e with use_count := e.use_count + 1 }
    (some e',
     { tm with hits := tm.hits + 1,
               memory := tm.memory.map fun kv =>
                 if kv.1 == k then (kv.1, e') else kv })
  | none => (none, { tm with misses := tm.misses + 1 })

/-- `TranslationMemory.set` (v22_1 flavour). -/
def TMV.set (tm : TMV) (sourceText targetLang translation model : List Char) :
    TMV :=
  let k := (sourceText, targetLang)
  let e : TMEntryV := ⟨sourceText.take 100, translation, targetLang, model, 1, 0⟩
  if (tmvFind tm.memory k).isSome then
    { tm with memory := tm.memory.map fun kv => if kv.1 == k then (kv.1, e) else kv }
  else
    { tm with memory := tm.memory ++ [(k, e)] }

/-- The dict returned by `_translate_with_gemini` / `_translate_with_grok`:
parsed translations plus usage and pricing data. -/
structure ProvResult where
  translations : List (List Char × List Char)
  model : List Char
  cost_jpy : ℚ
  tokens_input : Nat
  tokens_output : Nat
deriving DecidableEq, Repr

/-- The fields of an Agent 63 validation record inspected by
`_build_multi_language_result`. -/
structure BTInfo where
  similarity_score : ℚ
  confidence : List Char
  flag_for_review : Bool
deriving DecidableEq, Repr

/-- Positional zip of `enumerate(target_langs)` against the field list:
a present field is stripped, a missing one becomes the empty string. -/
def zipFields : List (List Char) → List (List Char) → List (List Char × List Char)
  | [], _ => []
  | lang :: ls, [] => (lang, []) :: zipFields ls []
  | lang :: ls, f :: fs => (lang, pyStrip f) :: zipFields ls fs

/-- `USI17_V22_1_Translator._parse_multi_language_response`: split the
response on tabs; when more than one field is present the first (echoed
source) is dropped, otherwise the whole list is used; then zip
positionally against the requested targets. -/
def parse_multi_language_response (responseText : List Char)
    (targetLangs : List (List Char)) : List (List Char × List Char) :=
  let parts := splitTab responseText
  let translationsList := if parts.length > 1 then parts.drop 1 else parts
  zipFields targetLangs translationsList

/-- Modelled from the spec (§4.4 response parsing): "parsing discards
field 0, zips remaining fields positionally against the requested
target list, and treats any missing trailing field as an empty-string
translation for that language".  Field 0 is discarded
unconditionally. -/
def specParse (responseText : List Char) (targetLangs : List (List Char)) :
    List (List Char × List Char) :=
  zipFields targetLangs ((splitTab responseText).drop 1)

/-- Association lookup on a translations dict, Python
`translations.get(t, '')`. -/
def lookupA (l : List (List Char × List Char)) (k : List Char) : Option (List Char) :=
  (l.find? (fun e => e.1 == k)).map (fun e => e.2)

/-- `'\t'.join(...)`. -/
def joinTab : List (List Char) → List Char
  | [] => []
  | [x] => x
  | x :: xs => x ++ '\t' :: joinTab xs

/-- Language code literals used by `translate`. -/
def langEn : List Char := "en".toList

/-- The `'ja'` code: the only source language routed through Agent 0C. -/
def langJa : List Char := "ja".toList

/-- Error text of the uncaught `NameError` in
`_build_multi_language_result` line 422 (`simplification_result` is a
local of `translate`, not visible there). -/
def nameErrUncaught : List Char :=
  "NameError: name simplification_result is not defined".toList

/-- Error text of the per-language `NameError` caught at line 389
(`original_source` is likewise not in scope). -/
def nameErrCaught : List Char :=
  "name original_source is not defined".toList

/-- `str(KeyError(lang))` for the `translations[target_lang]` subscript
in the Agent 63 loop, caught per language. -/
def keyErr (lang : List Char) : List Char := '\'' :: (lang ++ ['\''])

/-- Error raised by `_translate_with_claude`. -/
def claudeErr : List Char :=
  "Claude not implemented yet - V22.1 exceeds Claude's context window".toList

/-- `raise ValueError` text of `translate`. -/
def valueErr : List Char := "No valid target languages specified".toList

/-- `raise Exception(f"Budget limit reached: ...")` of `translate`
(amount interpolation omitted). -/
def budgetErr : List Char := "Budget limit reached".toList

/-- State of `USI17_V22_1_Translator` relevant to `translate`. -/
structure V22State where
  total_cost : ℚ
  max_budget : ℚ
  translation_count : Nat
  cost_grok : ℚ
  cost_gemini : ℚ
  cost_claude : ℚ
  tm : TMV
deriving DecidableEq, Repr

/-- Result dict of `translate` /
`_build_multi_language_result` (header-row fields, which are pure
renames of `column_order`, are omitted; a back-translation record is
`Except.error e` when the per-language `try` caught `e`, in which case
the source stores a synthetic assessment with similarity 0,
confidence `'error'` and review flag true). -/
structure V22Result where
  source : List Char
  source_lang : List Char
  targets : List (List Char × List Char)
  target_langs : List (List Char)
  multi_language_tab : List Char
  column_order : List (List Char)
  model : List Char
  cost_jpy : ℚ
  tokens_input : Nat
  tokens_output : Nat
  tm_hits : Nat
  tm_hit_rate : ℚ
  back_translation : List (List Char × Except (List Char) BTInfo)
deriving Repr

/-- The per-target TM loop of `translate`: returns the hit
translations (in target order), the hit count, the missing targets and
the threaded TM state. -/
def tmPartition (src : List Char) :
    List (List Char) → TMV →
    List (List Char × List Char) × Nat × List (List Char) × TMV
  | [], tm => ([], 0, [], tm)
  | lang :: ls, tm =>
    match TMV.get tm src lang with
    | (some e, tm') =>
      let out := tmPartition src ls tm'
      ((lang, e.translation) :: out.1, out.2.1 + 1, out.2.2.1, out.2.2.2)
    | (none, tm') =>
      let out := tmPartition src ls tm'
      (out.1, out.2.1, lang :: out.2.2.1, out.2.2.2)

/-- The Agent 63 loop of `_build_multi_language_result`, threading the
translator state through each per-language quality check: the
back-translator recursively calls `translate` on the same instance, so
each check may mutate the state.  `backVal st tr lang` is the outcome of
`validate_with_back_translation(source_text, tr, source_lang, lang)`
from state `st`: the mutated state and either the validation record or
the text of the exception caught by the per-language handler.  For a
Japanese source the reference to `original_source` raises a `NameError`
before any call (caught per language, state untouched); a target absent
from `translations` raises a `KeyError` at the subscript, likewise
before any call. -/
def agent63Loop
    (backVal : V22State → List Char → List Char →
      V22State × Except (List Char) BTInfo)
    (source_lang : List Char)
    (translations : List (List Char × List Char)) :
    List (List Char) → V22State →
    V22State × List (List Char × Except (List Char) BTInfo)
  | [], st => (st, [])
  | lang :: ls, st =>
    if source_lang = langJa then
      let out := agent63Loop backVal source_lang translations ls st
      (out.1, (lang, Except.error nameErrCaught) :: out.2)
    else
      match lookupA translations lang with
      | none =>
        let out := agent63Loop backVal source_lang translations ls st
        (out.1, (lang, Except.error (keyErr lang)) :: out.2)
      | some tr =>
        let step := backVal st tr lang
        let out := agent63Loop backVal source_lang translations ls step.1
        (out.1, (lang, step.2) :: out.2)

/-- `USI17_V22_1_Translator._build_multi_language_result`.  The Agent 63
loop runs first and may mutate the translator state (its back-translator
recursively calls `translate` on the same instance); the returned state
is the state after that loop.  For a Japanese source the final
`simplification_result` reference raises an uncaught `NameError` — after
the loop. -/
def build_multi_language_result
    (backVal : V22State → List Char → List Char →
      V22State × Except (List Char) BTInfo)
    (st : V22State)
    (source_text source_lang : List Char)
    (target_langs : List (List Char))
    (translations : List (List Char × List Char))
    (model : List Char) (cost_jpy : ℚ)
    (tokens_input tokens_output tm_hits : Nat) :
    V22State × Except (List Char) V22Result :=
  let column_order := source_lang :: target_langs
  let tab_values :=
    source_text :: target_langs.map (fun t => (lookupA translations t).getD [])
  let multi_language_tab := joinTab tab_values
  let agent := agent63Loop backVal source_lang translations target_langs st
  if source_lang = langJa then (agent.1, Except.error nameErrUncaught)
  else
    (agent.1,
     Except.ok
      ⟨source_text, source_lang, translations, target_langs,
       multi_language_tab, column_order, model, cost_jpy, tokens_input,
       tokens_output, tm_hits,
       (if target_langs.length > 0 then
          (tm_hits : ℚ) / target_langs.length * 100 else 0),
       agent.2⟩)

/-- Steps 1–2 of `translate`: default the target list to `['en']`,
then drop the source language from it. -/
def normalizedTargets (source_lang : List Char)
    (target_langs : Option (List (List Char))) : List (List Char) :=
  (match target_langs with
    | none => [langEn]
    | some l => if l = [] then [langEn] else l).filter (fun t => t ≠ source_lang)

/-- Step 3 of `translate`: optionally move English to the front. -/
def effectiveTargets (source_lang : List Char)
    (target_langs : Option (List (List Char))) (english_first : Bool) :
    List (List Char) :=
  let tl1 := normalizedTargets source_lang target_langs
  if english_first = true ∧ langEn ∈ tl1 then
    langEn :: tl1.filter (fun t => t ≠ langEn)
  else tl1

/-- The Agent 0C step of `translate`: Japanese sources are simplified,
all others pass through. -/
def effectiveSource (simplify : List Char → List Char)
    (source_text source_lang : List Char) : List Char :=
  if source_lang = langJa then simplify source_text else source_text

/-- `USI17_V22_1_Translator.translate`: target-list normalization,
optional English-first reordering, Agent 0C simplification (Japanese
source only), budget guard, per-target TM partition, early return when
everything is cached, otherwise the Gemini → Grok → Claude cascade
(Claude always raises), TM/bookkeeping updates and result assembly.
`geminiO`/`grokO` are the outcomes of `_translate_with_gemini` /
`_translate_with_grok` for this call's prompt. -/
def translate (st : V22State)
    (simplify : List Char → List Char)
    (geminiO grokO : Except (List Char) ProvResult)
    (backVal : V22State → List Char → List Char →
      V22State × Except (List Char) BTInfo)
    (source_text source_lang : List Char)
    (target_langs : Option (List (List Char)))
    (english_first : Bool) :
    Except (List Char) (V22State × V22Result) :=
  if normalizedTargets source_lang target_langs = [] then Except.error valueErr
  else
    let tl2 := effectiveTargets source_lang target_langs english_first
    let src := effectiveSource simplify source_text source_lang
    if st.total_cost ≥ st.max_budget then Except.error budgetErr
    else
      let part := tmPartition src tl2 st.tm
      let translations := part.1
      let tm_hits := part.2.1
      let remaining := part.2.2.1
      let st1 := { st with tm := part.2.2.2 }
      if remaining = [] then
        let built := build_multi_language_result backVal st1 src source_lang tl2
          translations "TM".toList 0 0 0 tm_hits
        built.2.map (fun r => (built.1, r))
      else
        let cascade : Except (List Char) (ProvResult × List Char) :=
          match geminiO with
          | Except.ok r => Except.ok (r, "gemini".toList)
          | Except.error _ =>
            match grokO with
            | Except.ok r => Except.ok (r, "grok".toList)
            | Except.error _ => Except.error claudeErr
        match cascade with
        | Except.error e => Except.error e
        | Except.ok (res, model_used) =>
          let merged := translations ++ res.translations
          let tm' := res.translations.foldl
            (fun tm lt => TMV.set tm src lt.1 lt.2 model_used) st1.tm
          let st2 :=
            { st1 with
                tm := tm',
                total_cost := st1.total_cost + res.cost_jpy,
                cost_gemini := if model_used = "gemini".toList then
                    st1.cost_gemini + res.cost_jpy else st1.cost_gemini,
                cost_grok := if model_used = "grok".toList then
                    st1.cost_grok + res.cost_jpy else st1.cost_grok,
                cost_claude := if model_used = "claude".toList then
                    st1.cost_claude + res.cost_jpy else st1.cost_claude,
                translation_count := st1.translation_count + remaining.length }
          let built := build_multi_language_result backVal st2 src source_lang tl2
            merged res.model res.cost_jpy res.tokens_input res.tokens_output
            tm_hits
          built.2.map (fun r => (built.1, r))

end V22

/-! ## Theorems

The claim theorems and their supporting lemmas.  Everything below is
about the definitions above; nothing below changes the embedding. -/

section ClaimC2
open RTF

/-- Claim C2: structural validation returns true iff the detected tag
sequences of source and candidate have equal total count, identical
ordered kind sequences, and identical literal tag text at every aligned
position whose kind is not one of the two content-bearing families; the
exempt kinds are exactly the hybrid-bracket opener (`memoq_hybrid_open`,
carrying the attribute payload `[uf ufcatid="…"}`) and the
attribute-carrying CAT-tool family (`trados_tag`, `<g1>`/`<x1/>`).  All
other kinds — plain open and close tags, numbered placeholders, the
hybrid closer and the codec's own placeholders — require literal
equality, and any violation yields false. -/
theorem C2_validate_structure_iff (sourceRtf targetRtf : List Char) :
    validate_rtf_structure sourceRtf targetRtf = true ↔
      ((detect_tags sourceRtf).length = (detect_tags targetRtf).length ∧
       (detect_tags sourceRtf).map Tag.type = (detect_tags targetRtf).map Tag.type ∧
       ∀ p ∈ (detect_tags sourceRtf).zip (detect_tags targetRtf),
         p.1.type ≠ TagType.memoq_hybrid_open → p.1.type ≠ TagType.trados_tag →
           p.1.original = p.2.original) := by
  show (if (detect_tags sourceRtf).length ≠ (detect_tags targetRtf).length then false
        else if (detect_tags sourceRtf).map Tag.type ≠
            (detect_tags targetRtf).map Tag.type then false
        else ((detect_tags sourceRtf).zip (detect_tags targetRtf)).all fun st =>
          st.1.original == st.2.original
            || st.1.type == TagType.memoq_hybrid_open
            || st.1.type == TagType.trados_tag) = true ↔ _
  split_ifs with h1 h2
  · constructor
    · intro h; cases h
    · intro hc; exact absurd hc.1 h1
  · constructor
    · intro h; cases h
    · intro hc; exact absurd hc.2.1 h2
  · rw [List.all_eq_true]
    constructor
    · intro hall
      refine ⟨not_ne_iff.mp h1, not_ne_iff.mp h2, ?_⟩
      intro p hp
      have h := hall p hp
      simp only [Bool.or_eq_true, beq_iff_eq] at h
      tauto
    · rintro ⟨-, -, h3⟩ p hp
      have h := h3 p hp
      simp only [Bool.or_eq_true, beq_iff_eq]
      tauto

end ClaimC2

section ClaimC6
open USI17 V22

/-- The positional zip underlying response parsing: requested targets
are paired with the stripped fields in order, and targets beyond the
last field receive the empty string. -/
theorem zipFields_eq_zip (ls fs : List (List Char)) :
    zipFields ls fs =
      ls.zip (fs.map pyStrip ++ List.replicate (ls.length - fs.length) []) := by
  induction ls generalizing fs with
  | nil => simp [zipFields]
  | cons l ls ih =>
    cases fs with
    | nil =>
      simp only [zipFields, List.map_nil, List.nil_append, List.length_nil,
        Nat.sub_zero, List.length_cons, List.replicate_succ, List.zip_cons_cons]
      rw [ih []]
      simp
    | cons f fs' =>
      simp only [zipFields, List.map_cons, List.cons_append, List.zip_cons_cons,
        List.length_cons, Nat.succ_sub_succ]
      rw [ih fs']

/-- Claim C6, counterexample: for the tab-free response `"hello"` with
requested targets `["en"]`, the code does not discard field 0 — it maps
`"en"` to the whole response — while the claim's unconditional
field-0-discarding parse maps `"en"` to the empty string. -/
theorem C6_counterexample :
    parse_multi_language_response "hello".toList ["en".toList] ≠
        specParse "hello".toList ["en".toList] ∧
      parse_multi_language_response "hello".toList ["en".toList] =
        [("en".toList, "hello".toList)] := by
  constructor
  · decide
  · decide

/-- Claim C6 (amended): whenever the provider response contains at
least one tab (so that it splits into two or more fields), parsing
discards field 0, zips the remaining stripped fields positionally
against the requested target list in order, and maps any target with no
corresponding field to the empty string; a tab-free response is instead
zipped whole, its single field (the echoed source position) included. -/
theorem C6_parse_discards_field0 (responseText : List Char)
    (targetLangs : List (List Char))
    (htab : 1 < (splitTab responseText).length) :
    parse_multi_language_response responseText targetLangs =
        specParse responseText targetLangs ∧
      specParse responseText targetLangs =
        targetLangs.zip
          (((splitTab responseText).drop 1).map pyStrip
            ++ List.replicate
              (targetLangs.length - ((splitTab responseText).drop 1).length) []) := by
  constructor
  · show zipFields targetLangs
        (if (splitTab responseText).length > 1
          then (splitTab responseText).drop 1 else splitTab responseText) =
      zipFields targetLangs ((splitTab responseText).drop 1)
    rw [if_pos htab]
  · exact zipFields_eq_zip _ _

/-- Witness for the amended C6 theorem at the concrete response
`"src\tHallo"`. -/
theorem C6_parse_discards_field0_witness :
    1 < (splitTab "src\tHallo".toList).length ∧
      parse_multi_language_response "src\tHallo".toList ["de".toList] =
        specParse "src\tHallo".toList ["de".toList] :=
  ⟨by decide, (C6_parse_discards_field0 "src\tHallo".toList ["de".toList] (by decide)).1⟩

end ClaimC6

section ClaimC7
open Agents63

/-- The confidence tier assigned by `assess` for `0.90 ≤ s`. -/
theorem assess_high {s : ℚ} (hs : (0.90 : ℚ) ≤ s) : (assess s).confidence = "high" := by
  simp only [assess, HIGH_CONFIDENCE_THRESHOLD]
  rw [if_pos hs]

/-- The confidence tier assigned by `assess` for `0.85 ≤ s < 0.90`. -/
theorem assess_medium {s : ℚ} (h1 : (0.85 : ℚ) ≤ s) (h2 : s < (0.90 : ℚ)) :
    (assess s).confidence = "medium" := by
  simp only [assess, HIGH_CONFIDENCE_THRESHOLD, MEDIUM_CONFIDENCE_THRESHOLD]
  rw [if_neg (by linarith), if_pos h1]

/-- The confidence tier assigned by `assess` for `s < 0.85`. -/
theorem assess_low {s : ℚ} (hs : s < (0.85 : ℚ)) : (assess s).confidence = "low" := by
  simp only [assess, HIGH_CONFIDENCE_THRESHOLD, MEDIUM_CONFIDENCE_THRESHOLD]
  rw [if_neg (by linarith), if_neg (by linarith)]

/-- `should_flag` flags exactly the scores below `0.85`, for any
confidence label. -/
theorem should_flag_iff (cl : String) (s : ℚ) :
    (should_flag cl s).flag_for_review = true ↔ s < (0.85 : ℚ) := by
  simp only [should_flag, REVIEW_THRESHOLD]
  split_ifs with h h1 h2 <;> simp_all

/-- Review priority for `s < 0.70`. -/
theorem should_flag_priority_high (cl : String) {s : ℚ} (hs : s < (0.70 : ℚ)) :
    (should_flag cl s).priority = "high" := by
  simp only [should_flag, REVIEW_THRESHOLD]
  rw [if_pos (by linarith : s < (0.85 : ℚ)), if_pos hs]

/-- Review priority for `0.70 ≤ s < 0.80`. -/
theorem should_flag_priority_medium (cl : String) {s : ℚ}
    (ha : (0.70 : ℚ) ≤ s) (hb : s < (0.80 : ℚ)) :
    (should_flag cl s).priority = "medium" := by
  simp only [should_flag, REVIEW_THRESHOLD]
  rw [if_pos (by linarith : s < (0.85 : ℚ)), if_neg (by linarith), if_pos hb]

/-- Review priority for `0.80 ≤ s < 0.85`. -/
theorem should_flag_priority_low (cl : String) {s : ℚ}
    (ha : (0.80 : ℚ) ≤ s) (hb : s < (0.85 : ℚ)) :
    (should_flag cl s).priority = "low" := by
  simp only [should_flag, REVIEW_THRESHOLD]
  rw [if_pos hb, if_neg (by linarith), if_neg (by linarith)]

/-- Claim C7: for every similarity score in `[0,1]`, `assess` yields
confidence high for `s ≥ 0.90`, medium for `0.85 ≤ s < 0.90`, low for
`s < 0.85`; `should_flag` flags exactly when `s < 0.85`; and among
flagged cases the priority is high for `s < 0.70`, medium for
`0.70 ≤ s < 0.80` and low for `0.80 ≤ s < 0.85`. -/
theorem C7_confidence_review_thresholds (s : ℚ) (h0 : 0 ≤ s) (h1 : s ≤ 1) :
    ((0.90 : ℚ) ≤ s → (assess s).confidence = "high") ∧
    ((0.85 : ℚ) ≤ s → s < (0.90 : ℚ) → (assess s).confidence = "medium") ∧
    (s < (0.85 : ℚ) → (assess s).confidence = "low") ∧
    ((should_flag (assess s).confidence s).flag_for_review = true ↔ s < (0.85 : ℚ)) ∧
    (s < (0.70 : ℚ) →
      (should_flag (assess s).confidence s).priority = "high") ∧
    ((0.70 : ℚ) ≤ s → s < (0.80 : ℚ) →
      (should_flag (assess s).confidence s).priority = "medium") ∧
    ((0.80 : ℚ) ≤ s → s < (0.85 : ℚ) →
      (should_flag (assess s).confidence s).priority = "low") :=
  ⟨fun hs => assess_high hs, fun ha hb => assess_medium ha hb,
   fun hs => assess_low hs, should_flag_iff _ s,
   fun hs => should_flag_priority_high _ hs,
   fun ha hb => should_flag_priority_medium _ ha hb,
   fun ha hb => should_flag_priority_low _ ha hb⟩

/-- Witness for claim C7 at the concrete score `s = 0.82`. -/
theorem C7_confidence_review_thresholds_witness :
    (0 : ℚ) ≤ 0.82 ∧ (0.82 : ℚ) ≤ 1 ∧
      (assess 0.82).confidence = "low" ∧
      (should_flag (assess 0.82).confidence 0.82).flag_for_review = true ∧
      (should_flag (assess 0.82).confidence 0.82).priority = "low" := by
  refine ⟨by norm_num, by norm_num, ?_, ?_, ?_⟩
  · exact (C7_confidence_review_thresholds 0.82 (by norm_num) (by norm_num)).2.2.1
      (by norm_num)
  · exact ((C7_confidence_review_thresholds 0.82 (by norm_num) (by norm_num)).2.2.2.1).mpr
      (by norm_num)
  · exact (C7_confidence_review_thresholds 0.82 (by norm_num) (by norm_num)).2.2.2.2.2.2
      (by norm_num) (by norm_num)

end ClaimC7

section ClaimC8
open Agents63

/-- The Jaccard similarity of the spec's example pair is `5/6`: the
token sets share 5 words out of 6 distinct ones. -/
theorem calculate_example_score :
    (calculate "the air cylinder is ready".toList
      "the air cylinder is ready now".toList).similarity_score = 5 / 6 := by
  have hi : ((wordSet "the air cylinder is ready".toList).filter
      (fun w => w ∈ wordSet "the air cylinder is ready now".toList)).length = 5 := by
    decide
  have hu : ((wordSet "the air cylinder is ready".toList)
      ++ (wordSet "the air cylinder is ready now".toList).filter
        (fun w => w ∉ wordSet "the air cylinder is ready".toList)).length = 6 := by
    decide
  show (if 0 < ((wordSet "the air cylinder is ready".toList)
        ++ (wordSet "the air cylinder is ready now".toList).filter
          (fun w => w ∉ wordSet "the air cylinder is ready".toList)).length
      then ((((wordSet "the air cylinder is ready".toList).filter
          (fun w => w ∈ wordSet "the air cylinder is ready now".toList)).length : ℚ) /
        (((wordSet "the air cylinder is ready".toList)
          ++ (wordSet "the air cylinder is ready now".toList).filter
            (fun w => w ∉ wordSet "the air cylinder is ready".toList)).length : ℚ))
      else 0) = 5 / 6
  rw [hi, hu]
  norm_num

/-- Claim C8, counterexample: on the example pair the similarity is
`5/6 ≈ 0.833 < 0.85`, so the assessed confidence is not `"medium"` as
the claim states. -/
theorem C8_counterexample :
    (assess (calculate "the air cylinder is ready".toList
        "the air cylinder is ready now".toList).similarity_score).confidence
      ≠ "medium" := by
  rw [calculate_example_score, assess_low (by norm_num : (5 : ℚ) / 6 < 0.85)]
  decide

/-- Claim C8 (amended): the similarity calculator yields Jaccard
similarity `5/6` on the example pair, and the resulting assessment is
confidence `"low"` (since `5/6 < 0.85`), review flag true, and priority
`"low"`. -/
theorem C8_example_scenario :
    (calculate "the air cylinder is ready".toList
        "the air cylinder is ready now".toList).similarity_score = 5 / 6 ∧
    (assess (5 / 6 : ℚ)).confidence = "low" ∧
    (should_flag (assess (5 / 6 : ℚ)).confidence (5 / 6)).flag_for_review = true ∧
    (should_flag (assess (5 / 6 : ℚ)).confidence (5 / 6)).priority = "low" :=
  ⟨calculate_example_score,
   assess_low (by norm_num),
   (should_flag_iff _ _).mpr (by norm_num),
   should_flag_priority_low _ (by norm_num) (by norm_num)⟩

end ClaimC8

section ClaimsMMT
open USI17 MMT

/-- A TM miss leaves the stored entries untouched (only the miss
counter moves). -/
theorem tm_get_memory_of_miss {tm : TranslationMemory} {a b : List Char}
    (h : (tm.get a b).1 = none) : (tm.get a b).2.memory = tm.memory := by
  simp only [TranslationMemory.get] at h ⊢
  cases hf : tmFind tm.memory (a, b) with
  | some e => rw [hf] at h; simp at h
  | none => rfl

/-- Provider-loop failure shape: when the cascade returns an
unsuccessful result, the translation is `None`, an error message is
present, and the translation memory's entries are unchanged. -/
theorem translateGo_shape (text targetLang : List Char) (oracle : MKey → Outcome) :
    ∀ (ks : List MKey) (t : Translator) (le : Option (List Char))
      (log : List (MKey × List Char × List Char)),
      (translateGo text targetLang oracle ks t le log).2.1.success = false →
        (translateGo text targetLang oracle ks t le log).2.1.translation = none ∧
        (translateGo text targetLang oracle ks t le log).2.1.error.isSome = true ∧
        (translateGo text targetLang oracle ks t le log).1.tm.memory = t.tm.memory := by
  intro ks
  induction ks with
  | nil => intro t le log _; exact ⟨rfl, rfl, rfl⟩
  | cons k ks ih =>
    intro t le log
    simp only [translateGo]
    cases hok : oracle k with
    | error e => exact ih t (some e) (log ++ [(k, text, targetLang)])
    | ok pr => intro h; simp at h

/-- Claim C10: `translate` is a total function into result dicts (the
embedding returns, never raises); its `success` field is Boolean, and
whenever `success` is false the `translation` field is `None`, an
`error` message is present, and no entry has been added to or changed
in the translation memory by the call. -/
theorem C10_translate_failure_shape (t : Translator) (oracle : MKey → Outcome)
    (text targetLang : List Char) :
    ((translate t oracle text targetLang).2.1.success = true ∨
      (translate t oracle text targetLang).2.1.success = false) ∧
    ((translate t oracle text targetLang).2.1.success = false →
      (translate t oracle text targetLang).2.1.translation = none ∧
      (translate t oracle text targetLang).2.1.error.isSome = true ∧
      (translate t oracle text targetLang).1.tm.memory = t.tm.memory) := by
  constructor
  · exact Bool.eq_false_or_eq_true _
  · simp only [MMT.translate]
    split
    · intro _; exact ⟨rfl, rfl, rfl⟩
    · split
      · intro h; simp at h
      · next tm' heq =>
        intro hfail
        obtain ⟨h1, h2, h3⟩ := translateGo_shape text targetLang oracle _ _ _ _ hfail
        refine ⟨h1, h2, ?_⟩
        rw [h3]
        show tm'.memory = t.tm.memory
        have : ((Translator.tm t).get text targetLang).1 = none := by rw [heq]
        have hm := tm_get_memory_of_miss this
        rw [heq] at hm
        exact hm

/-- Witness for claim C10: a concrete call (exhausted budget ceiling 0)
whose result is unsuccessful, with no translation and an error note. -/
theorem C10_translate_failure_shape_witness :
    (translate
        ⟨CostTracker.init 0, ⟨[], 0, 0⟩, false, false, false, ⟨0, 0, 0, 0, 0, 0⟩⟩
        (fun _ => Except.error "x".toList) "t".toList "en".toList).2.1.translation
      = none ∧
    (translate
        ⟨CostTracker.init 0, ⟨[], 0, 0⟩, false, false, false, ⟨0, 0, 0, 0, 0, 0⟩⟩
        (fun _ => Except.error "x".toList) "t".toList "en".toList).2.1.error.isSome
      = true := by
  have hca : (CostTracker.init 0).can_afford 100 = false := by
    simp only [CostTracker.can_afford, CostTracker.init]
    norm_num
  have hb : (translate
      (⟨CostTracker.init 0, ⟨[], 0, 0⟩, false, false, false, ⟨0, 0, 0, 0, 0, 0⟩⟩ :
        Translator)
      (fun _ => Except.error "x".toList) "t".toList "en".toList).2.1.success
      = false := by
    simp only [MMT.translate]
    rw [if_pos (by simp [hca])]
  exact ⟨((C10_translate_failure_shape _ _ _ _).2 hb).1,
    ((C10_translate_failure_shape _ _ _ _).2 hb).2.1⟩

end ClaimsMMT

section ClaimC3
open USI17 MMT

/-- Per-call costs are nonnegative. -/
theorem callCost_nonneg (k : MKey) (i o c : Nat) : 0 ≤ callCost k i o c := by
  cases k <;> simp only [callCost, PRICING] <;> positivity

/-- `add_usage` never decreases the running total. -/
theorem add_usage_total_mono (ct : CostTracker) (m : List Char) (i o c : Nat) :
    ct.costs_total ≤ (ct.add_usage m i o c).costs_total := by
  simp only [CostTracker.add_usage]
  cases modelKeyOf m with
  | none => exact le_refl _
  | some k =>
    have := callCost_nonneg k i o c
    cases k <;> simp <;> linarith

/-- `add_usage` never changes the ceiling. -/
theorem add_usage_budget (ct : CostTracker) (m : List Char) (i o c : Nat) :
    (ct.add_usage m i o c).max_budget_jpy = ct.max_budget_jpy := by
  simp only [CostTracker.add_usage]
  cases modelKeyOf m with
  | none => rfl
  | some k => cases k <;> rfl

/-- The provider loop only moves the total up and never touches the
ceiling. -/
theorem translateGo_cost (text targetLang : List Char) (oracle : MKey → Outcome) :
    ∀ (ks : List MKey) (t : Translator) (le : Option (List Char))
      (log : List (MKey × List Char × List Char)),
      t.cost_tracker.costs_total ≤
          (translateGo text targetLang oracle ks t le log).1.cost_tracker.costs_total ∧
        (translateGo text targetLang oracle ks t le log).1.cost_tracker.max_budget_jpy =
          t.cost_tracker.max_budget_jpy := by
  intro ks
  induction ks with
  | nil => intro t le log; exact ⟨le_refl _, rfl⟩
  | cons k ks ih =>
    intro t le log
    simp only [translateGo]
    cases hok : oracle k with
    | error e => exact ih t (some e) (log ++ [(k, text, targetLang)])
    | ok pr =>
      exact ⟨add_usage_total_mono _ _ _ _ _, add_usage_budget _ _ _ _ _⟩

/-- Single-step budget facts of `translate`: the total never
decreases, the ceiling never changes, the total only moves when the
pre-call `can_afford` check passed, and a failed check dispatches no
provider call and leaves the tracker untouched. -/
theorem translate_cost_step (t : Translator) (oracle : MKey → Outcome)
    (text targetLang : List Char) :
    t.cost_tracker.costs_total ≤
        (translate t oracle text targetLang).1.cost_tracker.costs_total ∧
      (translate t oracle text targetLang).1.cost_tracker.max_budget_jpy =
        t.cost_tracker.max_budget_jpy ∧
      ((translate t oracle text targetLang).1.cost_tracker.costs_total =
          t.cost_tracker.costs_total ∨
        t.cost_tracker.can_afford 100 = true) ∧
      (t.cost_tracker.can_afford 100 = false →
        (translate t oracle text targetLang).2.2 = [] ∧
        (translate t oracle text targetLang).1.cost_tracker = t.cost_tracker) := by
  simp only [MMT.translate]
  split
  · exact ⟨le_refl _, rfl, Or.inl rfl, fun _ => ⟨rfl, rfl⟩⟩
  · next hcan =>
    have hcan' : t.cost_tracker.can_afford 100 = true := by
      revert hcan; simp
    split
    · exact ⟨le_refl _, rfl, Or.inl rfl, fun h => by rw [hcan'] at h; cases h⟩
    · refine ⟨(translateGo_cost text targetLang oracle _ _ _ _).1,
        (translateGo_cost text targetLang oracle _ _ _ _).2,
        Or.inr hcan', fun h => by rw [hcan'] at h; cases h⟩

/-- Unfolding one step of `runTranslate`. -/
theorem runTranslate_take_succ (t0 : Translator) (calls : List CallSpec)
    (k : Nat) (hk : k < calls.length) :
    runTranslate t0 (calls.take (k + 1)) =
      (translate (runTranslate t0 (calls.take k)) (calls.get ⟨k, hk⟩).1
        (calls.get ⟨k, hk⟩).2.1 (calls.get ⟨k, hk⟩).2.2).1 := by
  have h1 : calls.take (k + 1) = calls.take k ++ [calls.get ⟨k, hk⟩] := by
    rw [List.take_succ]
    congr
    rw [List.getElem?_eq_getElem hk]
    rfl
  rw [h1]
  simp only [runTranslate, List.foldl_append, List.foldl_cons, List.foldl_nil]

/-- Claim C3: along every sequence of `translate` calls against one
cost tracker, (i) the running total is monotonically non-decreasing and
the ceiling never changes; (ii) after any step the total either is
within the ceiling, or was not increased by that step, or exceeds the
ceiling by no more than `c - 100` where `c` is that single call's
actual recorded cost and ¥100 the conservative estimate the dispatch
check used; (iii) once `can_afford` is false for the ¥100 estimate, the
step dispatches no provider call and the tracker is unchanged. -/
theorem C3_budget_invariants (t0 : Translator) (calls : List CallSpec)
    (k : Nat) (hk : k < calls.length) :
    (runTranslate t0 (calls.take k)).cost_tracker.totalJPY ≤
        (runTranslate t0 (calls.take (k + 1))).cost_tracker.totalJPY ∧
      (runTranslate t0 (calls.take (k + 1))).cost_tracker.max_budget_jpy =
        (runTranslate t0 (calls.take k)).cost_tracker.max_budget_jpy ∧
      ((runTranslate t0 (calls.take (k + 1))).cost_tracker.totalJPY ≤
          (runTranslate t0 (calls.take k)).cost_tracker.max_budget_jpy ∨
        (runTranslate t0 (calls.take (k + 1))).cost_tracker.totalJPY =
          (runTranslate t0 (calls.take k)).cost_tracker.totalJPY ∨
        ((runTranslate t0 (calls.take k)).cost_tracker.can_afford 100 = true ∧
          (runTranslate t0 (calls.take (k + 1))).cost_tracker.totalJPY ≤
            (runTranslate t0 (calls.take k)).cost_tracker.max_budget_jpy - 100 +
              ((runTranslate t0 (calls.take (k + 1))).cost_tracker.totalJPY -
                (runTranslate t0 (calls.take k)).cost_tracker.totalJPY))) ∧
      ((runTranslate t0 (calls.take k)).cost_tracker.can_afford 100 = false →
        (translate (runTranslate t0 (calls.take k)) (calls.get ⟨k, hk⟩).1
            (calls.get ⟨k, hk⟩).2.1 (calls.get ⟨k, hk⟩).2.2).2.2 = [] ∧
          (runTranslate t0 (calls.take (k + 1))).cost_tracker =
            (runTranslate t0 (calls.take k)).cost_tracker) := by
  rw [runTranslate_take_succ t0 calls k hk]
  obtain ⟨hmono, hbud, hstep, hguard⟩ :=
    translate_cost_step (runTranslate t0 (calls.take k)) (calls.get ⟨k, hk⟩).1
      (calls.get ⟨k, hk⟩).2.1 (calls.get ⟨k, hk⟩).2.2
  refine ⟨?_, hbud, ?_, hguard⟩
  · simp only [CostTracker.totalJPY, USD_TO_JPY]
    linarith
  · rcases hstep with h | h
    · refine Or.inr (Or.inl ?_)
      simp only [CostTracker.totalJPY, h]
    · refine Or.inr (Or.inr ⟨h, ?_⟩)
      have : (runTranslate t0 (calls.take k)).cost_tracker.totalJPY + 100 ≤
          (runTranslate t0 (calls.take k)).cost_tracker.max_budget_jpy := by
        have hb := of_decide_eq_true h
        simpa [CostTracker.can_afford, CostTracker.totalJPY] using h
      linarith

/-- Witness for claim C3 at a concrete one-call sequence. -/
theorem C3_budget_invariants_witness :
    0 < ([((fun _ => Except.error "x".toList : MKey → Outcome),
        "t".toList, "en".toList)] : List CallSpec).length ∧
      (runTranslate
          ⟨CostTracker.init 30000, ⟨[], 0, 0⟩, false, false, false, ⟨0, 0, 0, 0, 0, 0⟩⟩
          (([((fun _ => Except.error "x".toList : MKey → Outcome),
            "t".toList, "en".toList)] : List CallSpec).take 0)).cost_tracker.totalJPY ≤
        (runTranslate
          ⟨CostTracker.init 30000, ⟨[], 0, 0⟩, false, false, false, ⟨0, 0, 0, 0, 0, 0⟩⟩
          (([((fun _ => Except.error "x".toList : MKey → Outcome),
            "t".toList, "en".toList)] : List CallSpec).take 1)).cost_tracker.totalJPY :=
  ⟨by decide,
   (C3_budget_invariants _ _ 0 (by decide)).1⟩

end ClaimC3

section ClaimC4
open USI17 MMT

/-- The `add_usage` dispatch recognizes the name `"claude"`. -/
theorem modelKeyOf_claude : modelKeyOf "claude".toList = some MKey.claude := by decide

/-- Recording Claude usage adds exactly Claude's call cost to the
total and leaves the Grok and Gemini subtotals unchanged. -/
theorem add_usage_claude_fields (ct : CostTracker) (i o c : Nat) :
    (ct.add_usage "claude".toList i o c).costs_total =
        ct.costs_total + callCost MKey.claude i o c ∧
      (ct.add_usage "claude".toList i o c).costs_grok = ct.costs_grok ∧
      (ct.add_usage "claude".toList i o c).costs_gemini = ct.costs_gemini := by
  simp only [CostTracker.add_usage]
  rw [modelKeyOf_claude]
  exact ⟨rfl, rfl, rfl⟩

/-- With every credential configured the cascade order is
Grok → Gemini → Claude. -/
theorem modelsToTry_all (t : Translator) (hg : t.grok_available = true)
    (hm : t.gemini_available = true) (hc : t.claude_available = true) :
    modelsToTry t = [MKey.grok, MKey.gemini, MKey.claude] := by
  simp [modelsToTry, hg, hm, hc]

/-- On a passing budget check and a TM miss, `translate` runs the
provider cascade from the bumped state. -/
theorem translate_of_miss (t : Translator) (oracle : MKey → Outcome)
    (text targetLang : List Char)
    (hafford : t.cost_tracker.can_afford 100 = true)
    (hmiss : tmFind t.tm.memory (text, targetLang) = none) :
    translate t oracle text targetLang =
      translateGo text targetLang oracle (modelsToTry t)
        { t with
            stats := { t.stats with
              total_translations := t.stats.total_translations + 1 },
            tm := { t.tm with misses := t.tm.misses + 1 } } none [] := by
  simp only [MMT.translate, TranslationMemory.get, hmiss]
  rw [if_neg (by simp [hafford])]
  rfl

/-- Claim C4: providers are tried strictly in the fixed priority order
Grok → Gemini → Claude (which is lowest-cost-first in the pricing
table), each dispatched call receives the same text and target, the
first success wins; when providers 1 and 2 fail and provider 3
succeeds, the result reports provider 3's identifier as the model used
and only provider 3's usage is added to the cost ledger; and when all
providers fail the call fails carrying the last provider's error. -/
theorem C4_failover_order (t : Translator) (oracle : MKey → Outcome)
    (text targetLang eg em tr : List Char) (u : Usage)
    (hga : t.grok_available = true) (hge : t.gemini_available = true)
    (hca : t.claude_available = true)
    (hafford : t.cost_tracker.can_afford 100 = true)
    (hmiss : tmFind t.tm.memory (text, targetLang) = none)
    (hg : oracle MKey.grok = Except.error eg)
    (hm : oracle MKey.gemini = Except.error em)
    (hc : oracle MKey.claude = Except.ok (tr, u)) :
    (translate t oracle text targetLang).2.1.model_used = "claude".toList ∧
    (translate t oracle text targetLang).2.1.success = true ∧
    (translate t oracle text targetLang).2.1.translation = some tr ∧
    (translate t oracle text targetLang).2.2 =
      [(MKey.grok, text, targetLang), (MKey.gemini, text, targetLang),
        (MKey.claude, text, targetLang)] ∧
    (translate t oracle text targetLang).1.cost_tracker.costs_total =
      t.cost_tracker.costs_total +
        callCost MKey.claude u.input_tokens u.output_tokens u.cached_tokens ∧
    (translate t oracle text targetLang).1.cost_tracker.costs_grok =
      t.cost_tracker.costs_grok ∧
    (translate t oracle text targetLang).1.cost_tracker.costs_gemini =
      t.cost_tracker.costs_gemini ∧
    ((PRICING MKey.grok).input ≤ (PRICING MKey.gemini).input ∧
      (PRICING MKey.gemini).input ≤ (PRICING MKey.claude).input ∧
      (PRICING MKey.grok).output ≤ (PRICING MKey.gemini).output ∧
      (PRICING MKey.gemini).output ≤ (PRICING MKey.claude).output) ∧
    (∀ (oracle2 : MKey → Outcome) (e1 e2 e3 : List Char),
      oracle2 MKey.grok = Except.error e1 → oracle2 MKey.gemini = Except.error e2 →
      oracle2 MKey.claude = Except.error e3 →
      (translate t oracle2 text targetLang).2.1.success = false ∧
      (translate t oracle2 text targetLang).2.1.error = some e3) := by
  rw [translate_of_miss t oracle text targetLang hafford hmiss,
    modelsToTry_all t hga hge hca]
  simp only [translateGo, hg, hm, hc]
  refine ⟨by trivial, by trivial, by trivial, by simp, ?_, ?_, ?_, ?_, ?_⟩
  · exact (add_usage_claude_fields _ _ _ _).1
  · exact (add_usage_claude_fields _ _ _ _).2.1
  · exact (add_usage_claude_fields _ _ _ _).2.2
  · refine ⟨?_, ?_, ?_, ?_⟩ <;> · simp only [PRICING]; norm_num
  · intro oracle2 e1 e2 e3 h1 h2 h3
    rw [translate_of_miss t oracle2 text targetLang hafford hmiss,
      modelsToTry_all t hga hge hca]
    simp only [translateGo, h1, h2, h3]
    exact ⟨by trivial, by trivial⟩

/-- Witness for claim C4 at a concrete state and oracle. -/
theorem C4_failover_order_witness :
    (translate
        ⟨CostTracker.init 30000, ⟨[], 0, 0⟩, true, true, true, ⟨0, 0, 0, 0, 0, 0⟩⟩
        (fun k => match k with
          | MKey.claude => Except.ok ("bonjour".toList, ⟨100, 50, 0⟩)
          | _ => Except.error "boom".toList)
        "hello".toList "fr".toList).2.1.model_used = "claude".toList ∧
    (translate
        ⟨CostTracker.init 30000, ⟨[], 0, 0⟩, true, true, true, ⟨0, 0, 0, 0, 0, 0⟩⟩
        (fun k => match k with
          | MKey.claude => Except.ok ("bonjour".toList, ⟨100, 50, 0⟩)
          | _ => Except.error "boom".toList)
        "hello".toList "fr".toList).2.1.success = true := by
  have hafford : (CostTracker.init 30000).can_afford 100 = true := by
    simp only [CostTracker.can_afford, CostTracker.init]
    norm_num
  have h := C4_failover_order
    ⟨CostTracker.init 30000, ⟨[], 0, 0⟩, true, true, true, ⟨0, 0, 0, 0, 0, 0⟩⟩
    (fun k => match k with
      | MKey.claude => Except.ok ("bonjour".toList, ⟨100, 50, 0⟩)
      | _ => Except.error "boom".toList)
    "hello".toList "fr".toList "boom".toList "boom".toList "bonjour".toList
    ⟨100, 50, 0⟩ rfl rfl rfl hafford rfl rfl rfl rfl
  exact ⟨h.1, h.2.1⟩

end ClaimC4

section ClaimC5
open USI17 V22

/-- Claim C5, counterexample: a concrete call whose cache already holds
the `de` translation but not `fr`, with every provider failing.  The
call raises the final (Claude) provider error; the cached `de`
translation is not returned to the caller. -/
theorem C5_counterexample :
    V22.translate
        ⟨0, 30000, 0, 0, 0, 0,
          ⟨[(("hello".toList, "de".toList),
            ⟨"hello".toList, "hallo".toList, "de".toList, "gemini".toList, 1, 0⟩)], 0, 0⟩⟩
        id (Except.error "gem down".toList) (Except.error "grok down".toList)
        (fun s _ _ => (s, Except.error "bt".toList))
        "hello".toList "en".toList (some ["de".toList, "fr".toList]) true
      = Except.error claudeErr ∧
    tmvFind
        [(("hello".toList, "de".toList),
          ⟨"hello".toList, "hallo".toList, "de".toList, "gemini".toList, 1, 0⟩)]
        ("hello".toList, "de".toList) ≠ none := by
  constructor
  · simp only [V22.translate]
    rw [if_neg (by decide)]
    rw [if_neg (by norm_num : ¬ ((0 : ℚ) ≥ 30000))]
    rw [if_neg (by decide)]
  · decide

/-- Claim C5 (amended): when the budget check passes, at least one
target is missing from the translation cache, and every provider in the
cascade fails (Gemini and Grok return errors; Claude always raises),
the whole `translate` call raises the last provider's error.  The
translations already resolved from the cache are not returned — partial
success is not implemented. -/
theorem C5_cascade_failure_loses_cache (st : V22State)
    (simplify : List Char → List Char) (e1 e2 : List Char)
    (backVal : V22State → List Char → List Char →
      V22State × Except (List Char) BTInfo)
    (source_text source_lang : List Char)
    (target_langs : Option (List (List Char))) (english_first : Bool)
    (hbud : st.total_cost < st.max_budget)
    (hne : normalizedTargets source_lang target_langs ≠ [])
    (hrem : (tmPartition (effectiveSource simplify source_text source_lang)
        (effectiveTargets source_lang target_langs english_first) st.tm).2.2.1 ≠ []) :
    V22.translate st simplify (Except.error e1) (Except.error e2) backVal
        source_text source_lang target_langs english_first
      = Except.error claudeErr := by
  simp only [V22.translate]
  rw [if_neg hne, if_neg (not_le.mpr hbud), if_neg hrem]

/-- Witness for the amended C5 theorem at a concrete cache state. -/
theorem C5_cascade_failure_loses_cache_witness :
    V22.translate
        ⟨100, 30000, 0, 0, 0, 0,
          ⟨[(("abc".toList, "fr".toList),
            ⟨"abc".toList, "abc fr".toList, "fr".toList, "grok".toList, 1, 0⟩)], 0, 0⟩⟩
        id (Except.error "g1".toList) (Except.error "g2".toList)
        (fun s _ _ => (s, Except.error "bt".toList))
        "abc".toList "en".toList (some ["fr".toList, "de".toList]) true
      = Except.error claudeErr :=
  C5_cascade_failure_loses_cache _ id "g1".toList "g2".toList _
    "abc".toList "en".toList (some ["fr".toList, "de".toList]) true
    (by norm_num) (by decide) (by decide)

end ClaimC5

section ClaimC9
open USI17 V22

/-- Claim C9, counterexample: a call whose single target is already in
the translation cache, issued while the running total has reached the
ceiling.  Because the budget check precedes the cache lookup, the call
fails with the budget error instead of returning the cached
translation. -/
theorem C9_counterexample :
    V22.translate
        ⟨30000, 30000, 0, 0, 0, 0,
          ⟨[(("hello".toList, "de".toList),
            ⟨"hello".toList, "hallo".toList, "de".toList, "gemini".toList, 1, 0⟩)], 0, 0⟩⟩
        id (Except.error "gem down".toList) (Except.error "grok down".toList)
        (fun s _ _ => (s, Except.error "bt".toList))
        "hello".toList "en".toList (some ["de".toList]) true
      = Except.error budgetErr ∧
    tmvFind
        [(("hello".toList, "de".toList),
          ⟨"hello".toList, "hallo".toList, "de".toList, "gemini".toList, 1, 0⟩)]
        ("hello".toList, "de".toList) ≠ none := by
  constructor
  · simp only [V22.translate]
    rw [if_neg (by decide)]
    rw [if_pos (by norm_num : (30000 : ℚ) ≥ 30000)]
  · decide

/-- Claim C9 (amended): for every `translate` call whose target
languages are all present in the translation cache, provided the
running total is still below the ceiling (the budget check precedes the
per-target cache lookup) and the source language is not Japanese (the
Japanese result path dereferences an undefined name), the call returns
without a budget error, with every translation taken from the cache,
model `'TM'`, reported cost zero and zero tokens.  The returned state is
the state after the Agent 63 quality-check loop: that loop's
back-translator recursively calls `translate` on the same instance, so
the ledger and the translation memory may still change before the
return. -/
theorem C9_full_cache_returns_without_budget_error (st : V22State)
    (simplify : List Char → List Char)
    (geminiO grokO : Except (List Char) ProvResult)
    (backVal : V22State → List Char → List Char →
      V22State × Except (List Char) BTInfo)
    (source_text source_lang : List Char)
    (target_langs : Option (List (List Char))) (english_first : Bool)
    (hbud : st.total_cost < st.max_budget)
    (hne : normalizedTargets source_lang target_langs ≠ [])
    (hja : source_lang ≠ langJa)
    (hall : (tmPartition (effectiveSource simplify source_text source_lang)
        (effectiveTargets source_lang target_langs english_first) st.tm).2.2.1 = []) :
    ∃ r : V22Result,
      V22.translate st simplify geminiO grokO backVal source_text source_lang
          target_langs english_first
        = Except.ok
          ((agent63Loop backVal source_lang
              (tmPartition (effectiveSource simplify source_text source_lang)
                (effectiveTargets source_lang target_langs english_first) st.tm).1
              (effectiveTargets source_lang target_langs english_first)
              { st with tm :=
                  (tmPartition (effectiveSource simplify source_text source_lang)
                    (effectiveTargets source_lang target_langs english_first)
                    st.tm).2.2.2 }).1,
           r) ∧
      r.model = "TM".toList ∧ r.cost_jpy = 0 ∧
      r.tokens_input = 0 ∧ r.tokens_output = 0 ∧
      r.targets = (tmPartition (effectiveSource simplify source_text source_lang)
        (effectiveTargets source_lang target_langs english_first) st.tm).1 ∧
      r.tm_hits = (tmPartition (effectiveSource simplify source_text source_lang)
        (effectiveTargets source_lang target_langs english_first) st.tm).2.1 := by
  simp only [V22.translate]
  rw [if_neg hne, if_neg (not_le.mpr hbud), if_pos hall]
  simp only [build_multi_language_result]
  rw [if_neg hja]
  exact ⟨_, rfl, rfl, rfl, rfl, rfl, rfl, rfl⟩

/-- Witness for the amended C9 theorem at a concrete fully-cached
call, under a quality-check oracle that does mutate the ledger. -/
theorem C9_full_cache_returns_without_budget_error_witness :
    ∃ r : V22Result,
      V22.translate
          ⟨100, 30000, 0, 0, 0, 0,
            ⟨[(("hello".toList, "de".toList),
              ⟨"hello".toList, "hallo".toList, "de".toList, "gemini".toList, 1, 0⟩)], 0, 0⟩⟩
          id (Except.error "gd".toList) (Except.error "kd".toList)
          (fun s _ _ => ({ s with total_cost := s.total_cost + 7 },
            Except.ok ⟨1, "high".toList, false⟩))
          "hello".toList "en".toList (some ["de".toList]) true
        = Except.ok
          ((agent63Loop
              (fun s _ _ => ({ s with total_cost := s.total_cost + 7 },
                Except.ok ⟨1, "high".toList, false⟩))
              "en".toList
              (tmPartition (effectiveSource id "hello".toList "en".toList)
                (effectiveTargets "en".toList (some ["de".toList]) true)
                ⟨[(("hello".toList, "de".toList),
                  ⟨"hello".toList, "hallo".toList, "de".toList, "gemini".toList, 1, 0⟩)],
                  0, 0⟩).1
              (effectiveTargets "en".toList (some ["de".toList]) true)
              { (⟨100, 30000, 0, 0, 0, 0,
                  ⟨[(("hello".toList, "de".toList),
                    ⟨"hello".toList, "hallo".toList, "de".toList, "gemini".toList,
                     1, 0⟩)], 0, 0⟩⟩ :
                  V22State) with
                  tm := (tmPartition
                    (effectiveSource id "hello".toList "en".toList)
                    (effectiveTargets "en".toList (some ["de".toList]) true)
                    ⟨[(("hello".toList, "de".toList),
                      ⟨"hello".toList, "hallo".toList, "de".toList, "gemini".toList,
                       1, 0⟩)], 0, 0⟩).2.2.2 }).1, r) ∧
      r.model = "TM".toList ∧ r.cost_jpy = 0 ∧
      r.tokens_input = 0 ∧ r.tokens_output = 0 :=
  match C9_full_cache_returns_without_budget_error
    ⟨100, 30000, 0, 0, 0, 0,
      ⟨[(("hello".toList, "de".toList),
        ⟨"hello".toList, "hallo".toList, "de".toList, "gemini".toList, 1, 0⟩)], 0, 0⟩⟩
    id (Except.error "gd".toList) (Except.error "kd".toList)
    (fun s _ _ => ({ s with total_cost := s.total_cost + 7 },
      Except.ok ⟨1, "high".toList, false⟩))
    "hello".toList "en".toList (some ["de".toList]) true
    (by norm_num) (by decide) (by decide) (by decide) with
  | ⟨r, h1, h2, h3, h4, h5, _, _⟩ => ⟨r, h1, h2, h3, h4, h5⟩

end ClaimC9

section ClaimC1
open USI17 RTF

/-- `take` through an append, when the cut is inside the left part. -/
theorem take_append_of_le {α : Type} : ∀ (n : Nat) (l₁ l₂ : List α), n ≤ l₁.length →
    (l₁ ++ l₂).take n = l₁.take n
  | 0, _, _, _ => by simp
  | n + 1, [], l₂, h => by simp at h
  | n + 1, a :: t, l₂, h => by
    simp only [List.cons_append, List.take_succ_cons]
    rw [take_append_of_le n t l₂ (by simpa using h)]

/-- `drop` through an append, when the cut is inside the left part. -/
theorem drop_append_of_le {α : Type} : ∀ (n : Nat) (l₁ l₂ : List α), n ≤ l₁.length →
    (l₁ ++ l₂).drop n = l₁.drop n ++ l₂
  | 0, _, _, _ => by simp
  | n + 1, [], l₂, h => by simp at h
  | n + 1, a :: t, l₂, h => by
    simp only [List.cons_append, List.drop_succ_cons]
    exact drop_append_of_le n t l₂ (by simpa using h)

/-- `drop` through an append, when the cut is past the left part. -/
theorem drop_append_of_ge {α : Type} : ∀ (n : Nat) (l₁ l₂ : List α), l₁.length ≤ n →
    (l₁ ++ l₂).drop n = l₂.drop (n - l₁.length)
  | n, [], l₂, _ => by simp
  | n + 1, a :: t, l₂, h => by
    simp only [List.cons_append, List.drop_succ_cons, List.length_cons]
    rw [drop_append_of_ge n t l₂ (by simpa using h)]
    congr 1
    omega
  | 0, a :: t, l₂, h => by simp at h

/-- Adjacent slices glue. -/
theorem slice_glue (text : List Char) {a m b : Nat} (h1 : a ≤ m) (h2 : m ≤ b)
    (h3 : b ≤ text.length) :
    RTF.slice text a m ++ RTF.slice text m b = RTF.slice text a b := by
  unfold RTF.slice
  have hsplit : text.take b = text.take m ++ (text.take b).drop m := by
    conv_lhs => rw [← List.take_append_drop m (text.take b)]
    rw [List.take_take, min_eq_left h2]
  conv_rhs => rw [hsplit]
  rw [drop_append_of_le a (text.take m) _ (by simp; omega)]

/-- Characters of a slice are characters of the text. -/
theorem mem_slice {text : List Char} {a b : Nat} {x : Char} (h : x ∈ RTF.slice text a b) :
    x ∈ text :=
  List.take_subset b text (List.drop_subset a _ h)

/-- Specification of the `<[^>]+>` matcher. -/
theorem matchIndesignStd_spec {s g : List Char}
    (h : matchIndesignStd s = some g) : g ≠ [] ∧ g <+: s := by
  unfold matchIndesignStd at h
  split at h
  case _ rest =>
    split at h
    · cases h
    · rename_i tl heq hne
      cases h
      refine ⟨by simp, ?_⟩
      rw [List.cons_prefix_cons]
      refine ⟨rfl, ?_⟩
      conv_rhs => rw [← List.takeWhile_append_dropWhile
        (p := fun c : Char => decide (c ≠ '>')) (l := rest)]
      rw [heq]
      conv_rhs => rw [List.append_cons]
      exact List.prefix_append _ tl
    · cases h
  case _ => cases h

/-- Specification of the `</[^>]+>` matcher. -/
theorem matchIndesignClosing_spec {s g : List Char}
    (h : matchIndesignClosing s = some g) : g ≠ [] ∧ g <+: s := by
  unfold matchIndesignClosing at h
  split at h
  case _ rest =>
    split at h
    · cases h
    · rename_i tl heq hne
      cases h
      refine ⟨by simp, ?_⟩
      rw [List.cons_prefix_cons]
      refine ⟨rfl, ?_⟩
      rw [List.cons_prefix_cons]
      refine ⟨rfl, ?_⟩
      conv_rhs => rw [← List.takeWhile_append_dropWhile
        (p := fun c : Char => decide (c ≠ '>')) (l := rest)]
      rw [heq]
      conv_rhs => rw [List.append_cons]
      exact List.prefix_append _ tl
    · cases h
  case _ => cases h

/-- `lastBraceIdx` points at a `'}'`: taking up to it and appending the
brace is a prefix of the list. -/
theorem lastBraceIdx_take : ∀ {l : List Char} {k : Nat},
    lastBraceIdx l = some k → l.take k ++ ['}'] <+: l := by
  intro l
  induction l with
  | nil => intro k h; cases h
  | cons c t ih =>
    intro k h
    unfold lastBraceIdx at h
    cases hlb : lastBraceIdx t with
    | some q =>
      rw [hlb] at h
      injection h with h2
      subst h2
      rw [List.take_succ_cons, List.cons_append, List.cons_prefix_cons]
      exact ⟨rfl, ih hlb⟩
    | none =>
      rw [hlb] at h
      by_cases hc : c = '}'
      · rw [if_pos hc] at h
        injection h with h2
        subst h2
        simp only [List.take_zero, List.nil_append]
        rw [hc, List.cons_prefix_cons]
        exact ⟨rfl, List.nil_prefix⟩
      · rw [if_neg hc] at h
        cases h

/-- Specification of the `\[uf[^\]]*\}` matcher. -/
theorem matchMemoqOpen_spec {s g : List Char}
    (h : matchMemoqOpen s = some g) : g ≠ [] ∧ g <+: s := by
  unfold matchMemoqOpen at h
  split at h
  case _ rest =>
    cases hlb : lastBraceIdx (rest.takeWhile (fun c => c ≠ ']')) with
    | none => rw [hlb] at h; cases h
    | some k =>
      rw [hlb] at h
      cases h
      refine ⟨by simp, ?_⟩
      rw [List.cons_prefix_cons]
      refine ⟨rfl, ?_⟩
      rw [List.cons_prefix_cons]
      refine ⟨rfl, ?_⟩
      rw [List.cons_prefix_cons]
      refine ⟨rfl, ?_⟩
      refine (lastBraceIdx_take hlb).trans ?_
      conv_rhs => rw [← List.takeWhile_append_dropWhile
        (p := fun c : Char => decide (c ≠ ']')) (l := rest)]
      exact List.prefix_append _ _
  case _ => cases h

/-- Specification of the `\{uf\]` matcher. -/
theorem matchMemoqClose_spec {s g : List Char}
    (h : matchMemoqClose s = some g) : g ≠ [] ∧ g <+: s := by
  unfold matchMemoqClose at h
  split at h
  case _ tl =>
    cases h
    refine ⟨by simp, ?_⟩
    simp [List.cons_prefix_cons]
  case _ => cases h

/-- Specification of the `\{[0-9]+\}` matcher. -/
theorem matchWordfast_spec {s g : List Char}
    (h : matchWordfast s = some g) : g ≠ [] ∧ g <+: s := by
  unfold matchWordfast at h
  split at h
  case _ rest =>
    split at h
    · cases h
    · rename_i tl heq hne
      cases h
      refine ⟨by simp, ?_⟩
      rw [List.cons_prefix_cons]
      refine ⟨rfl, ?_⟩
      conv_rhs => rw [← List.takeWhile_append_dropWhile (p := Char.isDigit) (l := rest)]
      rw [heq]
      conv_rhs => rw [List.append_cons]
      exact List.prefix_append _ tl
    · cases h
  case _ => cases h

/-- Specification of the `⟦TAG_\d+⟧` matcher. -/
theorem matchPlaceholder_spec {s g : List Char}
    (h : matchPlaceholder s = some g) : g ≠ [] ∧ g <+: s := by
  unfold matchPlaceholder at h
  split at h
  case _ rest =>
    split at h
    · cases h
    · rename_i tl heq hne
      cases h
      refine ⟨by simp, ?_⟩
      rw [List.cons_prefix_cons]; refine ⟨rfl, ?_⟩
      rw [List.cons_prefix_cons]; refine ⟨rfl, ?_⟩
      rw [List.cons_prefix_cons]; refine ⟨rfl, ?_⟩
      rw [List.cons_prefix_cons]; refine ⟨rfl, ?_⟩
      rw [List.cons_prefix_cons]; refine ⟨rfl, ?_⟩
      conv_rhs => rw [← List.takeWhile_append_dropWhile (p := Char.isDigit) (l := rest)]
      rw [heq]
      conv_rhs => rw [List.append_cons]
      exact List.prefix_append _ tl
    · cases h
  case _ => cases h

/-- Specification of the `<[a-z]+[0-9]*\s*/?>` matcher. -/
theorem matchTrados_spec {s g : List Char}
    (h : matchTrados s = some g) : g ≠ [] ∧ g <+: s := by
  unfold matchTrados at h
  split at h
  case _ rest =>
    split at h
    · cases h
    · split at h
      · rename_i tl heq
        cases h
        refine ⟨by simp, ?_⟩
        rw [List.cons_prefix_cons]
        refine ⟨rfl, ?_⟩
        conv_rhs => rw [← List.takeWhile_append_dropWhile (p := isLowerAZ) (l := rest)]
        conv_rhs => rw [← List.takeWhile_append_dropWhile (p := Char.isDigit)
          (l := rest.dropWhile isLowerAZ)]
        conv_rhs => rw [← List.takeWhile_append_dropWhile (p := pyWhite)
          (l := (rest.dropWhile isLowerAZ).dropWhile Char.isDigit)]
        rw [heq]
        have h2 : ('/' :: '>' :: tl) = ['/', '>'] ++ tl := rfl
        rw [h2]
        simp only [← List.append_assoc]
        exact List.prefix_append _ tl
      · rename_i tl heq
        cases h
        refine ⟨by simp, ?_⟩
        rw [List.cons_prefix_cons]
        refine ⟨rfl, ?_⟩
        conv_rhs => rw [← List.takeWhile_append_dropWhile (p := isLowerAZ) (l := rest)]
        conv_rhs => rw [← List.takeWhile_append_dropWhile (p := Char.isDigit)
          (l := rest.dropWhile isLowerAZ)]
        conv_rhs => rw [← List.takeWhile_append_dropWhile (p := pyWhite)
          (l := (rest.dropWhile isLowerAZ).dropWhile Char.isDigit)]
        rw [heq]
        have h2 : ('>' :: tl) = ['>'] ++ tl := rfl
        rw [h2]
        simp only [← List.append_assoc]
        exact List.prefix_append _ tl
      · cases h
  case _ => cases h


/-- Membership in a stable insertion. -/
theorem mem_insertByStart {u t : Tag} : ∀ {L : List Tag},
    u ∈ insertByStart t L ↔ u = t ∨ u ∈ L := by
  intro L
  induction L with
  | nil => simp [insertByStart]
  | cons h r ih =>
    unfold insertByStart
    by_cases hlt : h.start < t.start
    · rw [if_pos hlt]
      simp only [List.mem_cons, ih]
      tauto
    · rw [if_neg hlt]
      simp only [List.mem_cons]

/-- Membership in the stable sort. -/
theorem mem_sortByStart {u : Tag} : ∀ {L : List Tag},
    u ∈ sortByStart L ↔ u ∈ L := by
  intro L
  induction L with
  | nil => simp [sortByStart]
  | cons h r ih =>
    unfold sortByStart
    rw [mem_insertByStart]
    simp only [List.mem_cons, ih]

/-- Slicing out the middle component of a three-part append. -/
theorem slice_append_mid (A B C : List Char) :
    RTF.slice (A ++ B ++ C) A.length (A.length + B.length) = B := by
  unfold RTF.slice
  rw [← List.length_append A B]
  rw [List.take_left]
  exact List.drop_left A B

/-- A nonempty match starting at `p` is exactly the slice it claims. -/
theorem slice_of_match {text g : List Char} {p : Nat} (hpre : g <+: text.drop p)
    (hp : p ≤ text.length) :
    RTF.slice text p (p + g.length) = g := by
  obtain ⟨t2, ht2⟩ := hpre
  have htext : text = text.take p ++ g ++ t2 := by
    rw [List.append_assoc, ht2, List.take_append_drop]
  have hlen : (text.take p).length = p := by
    rw [List.length_take]
    omega
  calc RTF.slice text p (p + g.length)
      = RTF.slice (text.take p ++ g ++ t2) (text.take p).length
          ((text.take p).length + g.length) := by rw [hlen, ← htext]
    _ = g := slice_append_mid _ _ _

/-- Every hit reported by the iteration worker lies at or after the
running offset, is nonempty, and matches the text at its offset. -/
theorem findIterFuel_mem {m : List Char → Option (List Char)}
    (hm : ∀ s g, m s = some g → g ≠ [] ∧ g <+: s) :
    ∀ (fuel : Nat) (s : List Char) (p0 p : Nat) (g : List Char),
      (p, g) ∈ findIterFuel m fuel s p0 →
      p0 ≤ p ∧ g ≠ [] ∧ g <+: s.drop (p - p0) := by
  intro fuel
  induction fuel with
  | zero =>
    intro s p0 p g h
    cases s <;> simp [findIterFuel] at h
  | succ k ih =>
    intro s p0 p g h
    cases s with
    | nil => simp [findIterFuel] at h
    | cons c s1 =>
      rw [findIterFuel] at h
      split at h
      case _ g0 hm0 =>
        obtain ⟨hg0ne, hg0pre⟩ := hm (c :: s1) g0 hm0
        have hg0len : g0.length ≠ 0 := fun hz => hg0ne (List.eq_nil_of_length_eq_zero hz)
        rw [if_neg hg0len] at h
        rcases List.mem_cons.mp h with heq | hrec
        · obtain ⟨hp, hg⟩ := Prod.mk.injEq .. ▸ heq
          subst hp; subst hg
          exact ⟨le_refl _, hg0ne, by simpa using hg0pre⟩
        · obtain ⟨hle, hne, hpre⟩ := ih _ _ _ _ hrec
          refine ⟨by omega, hne, ?_⟩
          rw [List.drop_drop] at hpre
          have harith : g0.length + (p - (p0 + g0.length)) = p - p0 := by omega
          rwa [harith] at hpre
      case _ hm0 =>
        obtain ⟨hle, hne, hpre⟩ := ih _ _ _ _ h
        refine ⟨by omega, hne, ?_⟩
        have harith : p - p0 = (p - (p0 + 1)) + 1 := by omega
        rw [harith, List.drop_succ_cons]
        exact hpre

/-- Every matcher in the pattern table reports nonempty prefixes. -/
theorem tagPatterns_sound : ∀ pm ∈ tagPatterns, ∀ s g,
    pm.2 s = some g → g ≠ [] ∧ g <+: s := by
  intro pm hpm
  simp only [tagPatterns, List.mem_cons, List.not_mem_nil, or_false] at hpm
  rcases hpm with h | h | h | h | h | h | h <;> subst h
  · exact fun s g => matchIndesignStd_spec
  · exact fun s g => matchIndesignClosing_spec
  · exact fun s g => matchMemoqOpen_spec
  · exact fun s g => matchMemoqClose_spec
  · exact fun s g => matchWordfast_spec
  · exact fun s g => matchTrados_spec
  · exact fun s g => matchPlaceholder_spec

/-- Well-formedness of detection: every detected tag records a real,
nonempty slice of the text. -/
theorem detect_tags_wf (text : List Char) : TagsWF text (detect_tags text) := by
  intro t ht
  unfold detect_tags at ht
  rw [mem_sortByStart] at ht
  obtain ⟨l, hl, htl⟩ := List.mem_flatten.mp ht
  obtain ⟨pm, hpm, rfl⟩ := List.mem_map.mp hl
  obtain ⟨pg, hpg, rfl⟩ := List.mem_map.mp htl
  obtain ⟨hle, hne, hpre⟩ :=
    findIterFuel_mem (tagPatterns_sound pm hpm) text.length text 0 pg.1 pg.2 hpg
  rw [Nat.sub_zero] at hpre
  have hplen : pg.1 ≤ text.length := by
    by_contra hgt
    rw [List.drop_eq_nil_of_le (by omega)] at hpre
    exact hne (List.eq_nil_of_prefix_nil hpre)
  have hglen : pg.2.length ≤ text.length - pg.1 := by
    have := hpre.length_le
    rwa [List.length_drop] at this
  have hpos : 0 < pg.2.length := List.length_pos.mpr hne
  refine ⟨by simp; omega, by simp; omega, ?_⟩
  simp only
  exact (slice_of_match hpre hplen).symm


/-- Digit characters decode to their values. -/
theorem digitChar_toNat : ∀ d, d < 10 → (digitChar d).toNat - 48 = d := by decide

/-- Digit characters are digits. -/
theorem digitChar_isDigit (d : Nat) : (digitChar d).isDigit = true := by
  unfold digitChar
  split <;> decide

/-- Reading a string that ends in one more character. -/
theorem readNum_snoc (s : List Char) (c : Char) :
    readNum (s ++ [c]) = 10 * readNum s + (c.toNat - 48) := by
  unfold readNum
  rw [List.foldl_append]
  rfl

/-- A leading zero does not change the decoded value. -/
theorem readNum_cons_zero (s : List Char) : readNum ('0' :: s) = readNum s := by
  unfold readNum
  rfl

/-- Zero padding does not change the decoded value. -/
theorem readNum_replicate_zero : ∀ (k : Nat) (s : List Char),
    readNum (List.replicate k '0' ++ s) = readNum s := by
  intro k
  induction k with
  | zero => intro s; rfl
  | succ j ih =>
    intro s
    rw [List.replicate_succ, List.cons_append, readNum_cons_zero]
    exact ih s

/-- The digit worker is a right inverse of decoding. -/
theorem readNum_natDigitsFuel : ∀ (fuel n : Nat), n < fuel →
    readNum (natDigitsFuel fuel n) = n := by
  intro fuel
  induction fuel with
  | zero => intro n h; omega
  | succ k ih =>
    intro n h
    rw [natDigitsFuel]
    by_cases hlt : n < 10
    · rw [if_pos hlt]
      have : readNum [digitChar n] = (digitChar n).toNat - 48 := by
        unfold readNum; simp
      rw [this, digitChar_toNat n hlt]
    · rw [if_neg hlt]
      rw [readNum_snoc]
      have hdiv : n / 10 < k := by
        have h1 : n / 10 < n := Nat.div_lt_self (by omega) (by omega)
        omega
      rw [ih (n / 10) hdiv, digitChar_toNat (n % 10) (Nat.mod_lt n (by omega))]
      omega

/-- `readNum` inverts `pad3`. -/
theorem readNum_pad3 (n : Nat) : readNum (pad3 n) = n := by
  unfold pad3
  rw [readNum_replicate_zero]
  exact readNum_natDigitsFuel (n + 1) n (Nat.lt_succ_self n)

/-- `pad3` is injective. -/
theorem pad3_inj {a b : Nat} (h : pad3 a = pad3 b) : a = b := by
  have := congrArg readNum h
  rwa [readNum_pad3, readNum_pad3] at this

/-- Every character the digit worker emits is a digit. -/
theorem mem_natDigitsFuel_isDigit : ∀ (fuel n : Nat) (x : Char),
    x ∈ natDigitsFuel fuel n → x.isDigit = true := by
  intro fuel
  induction fuel with
  | zero => intro n x h; simp [natDigitsFuel] at h
  | succ k ih =>
    intro n x h
    rw [natDigitsFuel] at h
    by_cases hlt : n < 10
    · rw [if_pos hlt] at h
      rw [List.mem_singleton] at h
      subst h
      exact digitChar_isDigit n
    · rw [if_neg hlt] at h
      rcases List.mem_append.mp h with h1 | h1
      · exact ih (n / 10) x h1
      · rw [List.mem_singleton] at h1
        subst h1
        exact digitChar_isDigit (n % 10)

/-- Every character of `pad3 n` is a digit. -/
theorem mem_pad3_isDigit {n : Nat} {x : Char} (h : x ∈ pad3 n) : x.isDigit = true := by
  unfold pad3 at h
  rcases List.mem_append.mp h with h1 | h1
  · rw [List.eq_of_mem_replicate h1]
    decide
  · exact mem_natDigitsFuel_isDigit (n + 1) n x h1

/-- The opening delimiter is not a digit, hence not in `pad3`. -/
theorem delim_not_mem_pad3 (n : Nat) : '⟦' ∉ pad3 n := by
  intro h
  have := mem_pad3_isDigit h
  simp [Char.isDigit] at this

/-- The placeholder split into head delimiter and tail. -/
theorem phString_cons (n : Nat) :
    phString n = '⟦' :: ('T' :: 'A' :: 'G' :: '_' :: (pad3 n ++ ['⟧'])) := rfl

/-- The delimiter appears nowhere after a placeholder's first character. -/
theorem delim_not_mem_phTail (n : Nat) :
    '⟦' ∉ 'T' :: 'A' :: 'G' :: '_' :: (pad3 n ++ ['⟧']) := by
  intro h
  simp only [List.mem_cons, List.mem_append, List.mem_singleton] at h
  rcases h with h | h | h | h | h | h
  · exact absurd h (by decide)
  · exact absurd h (by decide)
  · exact absurd h (by decide)
  · exact absurd h (by decide)
  · exact delim_not_mem_pad3 n h
  · exact absurd h (by decide)

/-- Two digit blocks closed by the same non-digit delimiter and standing
at the head of prefix-related lists are equal. -/
theorem digits_brack_eq : ∀ (d1 d2 Y X : List Char),
    (∀ x ∈ d1, x.isDigit = true) → (∀ x ∈ d2, x.isDigit = true) →
    (d1 ++ '⟧' :: Y) <+: (d2 ++ '⟧' :: X) → d1 = d2 := by
  intro d1
  induction d1 with
  | nil =>
    intro d2 Y X _ hd2 h
    cases d2 with
    | nil => rfl
    | cons b d2t =>
      rw [List.nil_append, List.cons_append, List.cons_prefix_cons] at h
      have hb := hd2 b (List.mem_cons_self b d2t)
      rw [← h.1] at hb
      simp [Char.isDigit] at hb
  | cons a d1t ih =>
    intro d2 Y X hd1 hd2 h
    cases d2 with
    | nil =>
      rw [List.cons_append, List.nil_append, List.cons_prefix_cons] at h
      have ha := hd1 a (List.mem_cons_self a d1t)
      rw [h.1] at ha
      simp [Char.isDigit] at ha
    | cons b d2t =>
      rw [List.cons_append, List.cons_append, List.cons_prefix_cons] at h
      rw [h.1, ih d2t Y X (fun x hx => hd1 x (List.mem_cons_of_mem a hx))
        (fun x hx => hd2 x (List.mem_cons_of_mem b hx)) h.2]

/-- A placeholder that is a prefix of another placeholder (followed by
anything) carries the same number. -/
theorem phString_of_ph_append {n m : Nat} {X : List Char}
    (h : phString n <+: phString m ++ X) : n = m := by
  rw [phString_cons, phString_cons] at h
  simp only [List.cons_append, List.cons_prefix_cons, List.append_assoc,
    List.singleton_append] at h
  obtain ⟨-, -, -, -, -, h⟩ := h
  exact pad3_inj (digits_brack_eq (pad3 n) (pad3 m) [] X
    (fun x hx => mem_pad3_isDigit hx) (fun x hx => mem_pad3_isDigit hx)
    (by simpa using h))


/-- A pattern whose first character is absent from a list never occurs
in it. -/
theorem noOccur_of_head_not_mem {hc : Char} {p1 X : List Char} (h : hc ∉ X) :
    NoOccur (hc :: p1) X := by
  intro i hpre
  obtain ⟨t, ht⟩ := hpre
  have : hc ∈ X.drop i := by
    rw [← ht]
    exact List.mem_append_left t (List.mem_cons_self hc p1)
  exact h (List.drop_subset i X this)

/-- The head of a cons-headed prefix of `Z ++ W` lies in `Z` when `Z` is
nonempty. -/
theorem head_mem_of_prefix_append {hc : Char} {p1 Z W : List Char}
    (h : hc :: p1 <+: Z ++ W) (hZ : Z ≠ []) : hc ∈ Z := by
  cases Z with
  | nil => exact absurd rfl hZ
  | cons z r =>
    rw [List.cons_append, List.cons_prefix_cons] at h
    rw [h.1]
    exact List.mem_cons_self z r

/-- Occurrence-freeness extends over an append whose left part avoids
the pattern's first character. -/
theorem noOccur_append {hc : Char} {p1 X Y : List Char} (hX : hc ∉ X)
    (hY : NoOccur (hc :: p1) Y) : NoOccur (hc :: p1) (X ++ Y) := by
  intro i hpre
  rcases Nat.lt_or_ge i X.length with hlt | hge
  · rw [drop_append_of_le i X Y (by omega)] at hpre
    have hne : X.drop i ≠ [] := by
      intro hnil
      have := congrArg List.length hnil
      rw [List.length_drop] at this
      simp at this
      omega
    exact hX (List.drop_subset i X (head_mem_of_prefix_append hpre hne))
  · rw [drop_append_of_ge i X Y hge] at hpre
    exact hY (i - X.length) hpre

/-- A placeholder with number `n` does not occur in a text that starts
with a placeholder with a different number and continues with an
`n`-placeholder-free tail. -/
theorem noOccur_ph_prepend {n m : Nat} {Z : List Char} (hne : n ≠ m)
    (hZ : NoOccur (phString n) Z) : NoOccur (phString n) (phString m ++ Z) := by
  intro i hpre
  rcases Nat.eq_zero_or_pos i with hi0 | hipos
  · subst hi0
    rw [List.drop_zero] at hpre
    exact hne (phString_of_ph_append hpre)
  · rcases Nat.lt_or_ge i (phString m).length with hlt | hge
    · rw [drop_append_of_le i (phString m) Z (by omega)] at hpre
      rw [phString_cons m] at hpre
      obtain ⟨j, rfl⟩ := Nat.exists_eq_add_of_le hipos
      rw [Nat.add_comm, List.drop_succ_cons] at hpre
      rw [phString_cons n] at hpre
      have hne2 : List.drop j ('T' :: 'A' :: 'G' :: '_' :: (pad3 m ++ ['⟧'])) ≠ [] := by
        intro hnil
        have := congrArg List.length hnil
        rw [List.length_drop] at this
        rw [phString_cons m] at hlt
        simp at this ⊢
        simp at hlt
        omega
      have hmem := head_mem_of_prefix_append hpre hne2
      exact delim_not_mem_phTail m
        (List.drop_subset j ('T' :: 'A' :: 'G' :: '_' :: (pad3 m ++ ['⟧'])) hmem)
    · rw [drop_append_of_ge i (phString m) Z hge] at hpre
      exact hZ (i - (phString m).length) hpre

/-- The worker of `replaceAll` ignores the fuel once it covers the text
length. -/
theorem replaceAllFuel_congr : ∀ (f1 f2 : Nat) (s pat rep : List Char),
    s.length ≤ f1 → s.length ≤ f2 →
    replaceAllFuel f1 s pat rep = replaceAllFuel f2 s pat rep := by
  intro f1
  induction f1 with
  | zero =>
    intro f2 s pat rep h1 h2
    have : s = [] := List.eq_nil_of_length_eq_zero (by omega)
    subst this
    cases f2 <;> rfl
  | succ k ih =>
    intro f2 s pat rep h1 h2
    cases s with
    | nil => cases f2 <;> rfl
    | cons c s1 =>
      cases f2 with
      | zero => simp at h2
      | succ j =>
        rw [replaceAllFuel, replaceAllFuel]
        by_cases hcond : pat ≠ [] ∧ pat.isPrefixOf (c :: s1)
        · rw [if_pos hcond, if_pos hcond]
          have hplen : 1 ≤ pat.length := by
            cases pat with
            | nil => exact absurd rfl hcond.1
            | cons _ _ => simp
          have hdlen : ((c :: s1).drop pat.length).length ≤ k := by
            rw [List.length_drop]
            simp at h1 ⊢
            omega
          have hdlen2 : ((c :: s1).drop pat.length).length ≤ j := by
            rw [List.length_drop]
            simp at h2 ⊢
            omega
          rw [ih j _ pat rep hdlen hdlen2]
        · rw [if_neg hcond, if_neg hcond]
          rw [ih j s1 pat rep (by simp at h1; omega) (by simp at h2; omega)]

/-- One positive step of `replaceAll`. -/
theorem replaceAll_cons_pos {pat : List Char} {c : Char} {s : List Char}
    (hne : pat ≠ []) (hpre : pat.isPrefixOf (c :: s)) (rep : List Char) :
    replaceAll (c :: s) pat rep = rep ++ replaceAll ((c :: s).drop pat.length) pat rep := by
  unfold replaceAll
  have h1 : (c :: s).length = s.length + 1 := by simp
  rw [h1, replaceAllFuel, if_pos ⟨hne, hpre⟩]
  have hplen : 1 ≤ pat.length := by
    cases pat with
    | nil => exact absurd rfl hne
    | cons _ _ => simp
  rw [replaceAllFuel_congr s.length ((c :: s).drop pat.length).length _ pat rep
    (by rw [List.length_drop]; simp; omega) (le_refl _)]

/-- One negative step of `replaceAll`. -/
theorem replaceAll_cons_neg {pat : List Char} {c : Char} {s : List Char}
    (hcond : ¬ (pat ≠ [] ∧ pat.isPrefixOf (c :: s))) (rep : List Char) :
    replaceAll (c :: s) pat rep = c :: replaceAll s pat rep := by
  unfold replaceAll
  have h1 : (c :: s).length = s.length + 1 := by simp
  rw [h1, replaceAllFuel, if_neg hcond]

/-- `replaceAll` is the identity when the pattern never occurs. -/
theorem replaceAll_no_occur : ∀ {s pat : List Char} (rep : List Char),
    pat ≠ [] → NoOccur pat s → replaceAll s pat rep = s := by
  intro s
  induction s with
  | nil => intro pat rep _ _; rfl
  | cons c s1 ih =>
    intro pat rep hne hno
    have hnp : ¬ pat.isPrefixOf (c :: s1) := by
      intro hp
      exact hno 0 (by rw [List.drop_zero]; exact List.isPrefixOf_iff_prefix.mp hp)
    rw [replaceAll_cons_neg (fun hand => hnp hand.2) rep]
    rw [ih rep hne (fun i hp => hno (i + 1) (by rwa [List.drop_succ_cons]))]

/-- `replaceAll` on a text of shape `A ++ pat ++ B`, when the pattern's
first character is absent from `A`: the single marked occurrence is
replaced and scanning continues on `B` alone. -/
theorem replaceAll_head_bound (hc : Char) (p1 : List Char) :
    ∀ (A : List Char) (B rep : List Char), hc ∉ A →
    replaceAll (A ++ (hc :: p1) ++ B) (hc :: p1) rep
      = A ++ rep ++ replaceAll B (hc :: p1) rep := by
  intro A
  induction A with
  | nil =>
    intro B rep _
    rw [List.nil_append, List.nil_append, List.cons_append]
    rw [replaceAll_cons_pos (by simp) (by
      rw [List.isPrefixOf_iff_prefix, ← List.cons_append]
      exact List.prefix_append _ B) rep]
    rw [← List.cons_append, List.drop_left]
  | cons a A1 ih =>
    intro B rep hA
    have ha : a ≠ hc := fun h => hA (h ▸ List.mem_cons_self a A1)
    rw [List.cons_append, List.cons_append]
    rw [replaceAll_cons_neg (by
      intro hand
      have := hand.2
      rw [List.isPrefixOf_iff_prefix, List.cons_prefix_cons] at this
      exact ha this.1.symm) rep]
    rw [ih B rep (fun h => hA (List.mem_cons_of_mem a h))]
    rw [List.cons_append, List.cons_append]


/-- In a reverse-ordered disjoint chain, every later tag ends at or
before the head tag starts. -/
theorem chain_stop_le_start : ∀ (t : Tag) (rest : List Tag),
    (∀ u ∈ rest, u.start < u.stop) →
    List.Chain' (fun a b => b.stop ≤ a.start) (t :: rest) →
    ∀ u ∈ rest, u.stop ≤ t.start := by
  intro t rest
  induction rest generalizing t with
  | nil => intro _ _ u hu; simp at hu
  | cons v rest1 ih =>
    intro hwf hch u hu
    have hrel : v.stop ≤ t.start := List.chain'_cons.mp hch |>.1
    rcases List.mem_cons.mp hu with rfl | hu1
    · exact hrel
    · have hvs := hwf v (List.mem_cons_self v rest1)
      have := ih v (fun w hw => hwf w (List.mem_cons_of_mem v hw))
        (List.chain'_cons.mp hch).2 u hu1
      omega

/-- In a source-ordered disjoint chain, every later tag starts at or
after the head tag ends. -/
theorem chain_start_ge_stop : ∀ (t : Tag) (rest : List Tag),
    (∀ u ∈ rest, u.start < u.stop) →
    List.Chain' (fun a b => a.stop ≤ b.start) (t :: rest) →
    ∀ u ∈ rest, t.stop ≤ u.start := by
  intro t rest
  induction rest generalizing t with
  | nil => intro _ _ u hu; simp at hu
  | cons v rest1 ih =>
    intro hwf hch u hu
    have hrel : t.stop ≤ v.start := List.chain'_cons.mp hch |>.1
    rcases List.mem_cons.mp hu with rfl | hu1
    · exact hrel
    · have hvs := hwf v (List.mem_cons_self v rest1)
      have := ih v (fun w hw => hwf w (List.mem_cons_of_mem v hw))
        (List.chain'_cons.mp hch).2 u hu1
      omega

/-- Appending a final tag to the assembled text. -/
theorem assembleTags_snoc (text : List Char) (f : Nat → Tag → List Char) :
    ∀ (A : List Tag) (t : Tag) (c prev b : Nat),
    assembleTags text f (A ++ [t]) c prev b
      = assembleTags text f A (c + 1) prev t.start ++ f c t ++ slice text t.stop b := by
  intro A
  induction A with
  | nil =>
    intro t c prev b
    simp only [List.nil_append, assembleTags, List.length_nil, Nat.add_zero]
  | cons u A1 ih =>
    intro t c prev b
    rw [List.cons_append, assembleTags, assembleTags, ih t c u.stop b]
    have hlen : (A1 ++ [t]).length = A1.length + 1 := by simp
    rw [hlen]
    have harith : c + (A1.length + 1) = c + 1 + A1.length := by omega
    rw [harith]
    simp only [List.append_assoc]

/-- Appending a final tag to the expected mapping list. -/
theorem mapsOf_snoc : ∀ (A : List Tag) (t : Tag) (c : Nat),
    mapsOf (A ++ [t]) c
      = mapsOf A (c + 1)
        ++ [TagMapping.mk (idString c) (phString c) t.original t.type t.start] := by
  intro A
  induction A with
  | nil =>
    intro t c
    simp only [List.nil_append, mapsOf, List.length_nil, Nat.add_zero]
  | cons u A1 ih =>
    intro t c
    rw [List.cons_append, mapsOf, mapsOf, ih t c]
    have hlen : (A1 ++ [t]).length = A1.length + 1 := by simp
    rw [hlen]
    have harith : c + (A1.length + 1) = c + 1 + A1.length := by omega
    rw [harith, List.cons_append]

/-- A placeholder whose number is outside the id range of an assembled
text never occurs in it. -/
theorem noOccur_assemble (text : List Char) (hdelim : '⟦' ∉ text) :
    ∀ (T : List Tag) (c prev b n : Nat),
    (∀ k, k < T.length → c + k ≠ n) →
    NoOccur (phString n) (assembleTags text (fun j _ => phString j) T c prev b) := by
  intro T
  induction T with
  | nil =>
    intro c prev b n _
    rw [assembleTags, phString_cons]
    exact noOccur_of_head_not_mem (fun h => hdelim (mem_slice h))
  | cons t T1 ih =>
    intro c prev b n hk
    rw [assembleTags, List.append_assoc]
    rw [phString_cons n]
    refine noOccur_append (fun h => hdelim (mem_slice h)) ?_
    rw [← phString_cons n]
    have hhead : c + T1.length ≠ n := hk T1.length (by simp)
    refine noOccur_ph_prepend (fun h => hhead h.symm) ?_
    exact ih c t.stop b n (fun k hklt => hk k (by simp; omega))

/-- The replacement loop of the extractor, on a working text that is a
clean prefix of the source followed by already-masked material, produces
exactly the assembled placeholder text and the expected mapping list. -/
theorem maskRev_assemble (text : List Char) :
    ∀ (Lrev : List Tag) (c b : Nat) (S : List Char),
      b ≤ text.length →
      (∀ t ∈ Lrev, t.start < t.stop ∧ t.stop ≤ b) →
      List.Chain' (fun a u => u.stop ≤ a.start) Lrev →
      maskRev Lrev c (text.take b ++ S)
        = (c + Lrev.length,
           assembleTags text (fun j _ => phString j) Lrev.reverse c 0 b ++ S,
           mapsOf Lrev.reverse c) := by
  intro Lrev
  induction Lrev with
  | nil =>
    intro c b S hb _ _
    simp only [maskRev, List.reverse_nil, assembleTags, mapsOf, List.length_nil,
      Nat.add_zero]
    unfold RTF.slice
    rw [List.drop_zero]
  | cons t rest ih =>
    intro c b S hb hwf hch
    have ht := hwf t (List.mem_cons_self t rest)
    have htb : (text.take b).length = b := by
      rw [List.length_take]
      omega
    have hstart_le : t.start ≤ (text.take b).length := by omega
    have hstop_le : t.stop ≤ (text.take b).length := by omega
    have hrest_wf : ∀ u ∈ rest, u.start < u.stop ∧ u.stop ≤ t.start := by
      intro u hu
      refine ⟨(hwf u (List.mem_cons_of_mem t hu)).1, ?_⟩
      exact chain_stop_le_start t rest
        (fun w hw => (hwf w (List.mem_cons_of_mem t hw)).1) hch u hu
    simp only [maskRev]
    rw [take_append_of_le t.start (text.take b) S hstart_le]
    rw [drop_append_of_le t.stop (text.take b) S hstop_le]
    rw [List.take_take, min_eq_left (by omega)]
    have hform :
        text.take t.start ++ phString c ++ ((text.take b).drop t.stop ++ S)
          = text.take t.start ++ (phString c ++ RTF.slice text t.stop b ++ S) := by
      unfold RTF.slice
      simp only [List.append_assoc]
    rw [hform]
    rw [ih (c + 1) t.start (phString c ++ RTF.slice text t.stop b ++ S)
      (by omega) hrest_wf (List.chain'_cons'.mp hch).2]
    simp only [List.reverse_cons]
    rw [assembleTags_snoc, mapsOf_snoc]
    simp only [Prod.mk.injEq]
    refine ⟨by simp; omega, ?_, by trivial⟩
    simp only [List.append_assoc]


/-- A placeholder is never the empty string. -/
theorem phString_ne_nil (n : Nat) : phString n ≠ [] := by
  rw [phString_cons]
  simp

/-- The restoration fold undoes the assembled masking: replacing each
placeholder by its original turns the masked window back into the source
window, in the presence of any delimiter-free already-restored prefix. -/
theorem restore_fold (text : List Char) (hdelim : '⟦' ∉ text) (b : Nat)
    (hb : b ≤ text.length) :
    ∀ (T : List Tag) (c prev : Nat) (D : List Char),
      (∀ t ∈ T, t.start < t.stop ∧ t.stop ≤ b
        ∧ t.original = RTF.slice text t.start t.stop) →
      List.Chain' (fun a u => a.stop ≤ u.start) T →
      (∀ t ∈ T, prev ≤ t.start) →
      '⟦' ∉ D →
      List.foldl (fun r m => replaceAll r m.placeholder m.original)
        (D ++ assembleTags text (fun j _ => phString j) T c prev b) (mapsOf T c)
      = D ++ RTF.slice text prev b := by
  intro T
  induction T with
  | nil =>
    intro c prev D _ _ _ _
    simp only [mapsOf, assembleTags, List.foldl_nil]
  | cons t T1 ih =>
    intro c prev D hwf hch hprev hD
    obtain ⟨hts, htb, hto⟩ := hwf t (List.mem_cons_self t T1)
    have hA : '⟦' ∉ D ++ RTF.slice text prev t.start := by
      intro h
      rcases List.mem_append.mp h with h | h
      · exact hD h
      · exact hdelim (mem_slice h)
    have hnoB : NoOccur (phString (c + T1.length))
        (assembleTags text (fun j _ => phString j) T1 c t.stop b) :=
      noOccur_assemble text hdelim T1 c t.stop b (c + T1.length)
        (fun k hk => by omega)
    have hstep : replaceAll
        (D ++ (RTF.slice text prev t.start ++ (phString (c + T1.length)
          ++ assembleTags text (fun j _ => phString j) T1 c t.stop b)))
        (phString (c + T1.length)) t.original
        = D ++ (RTF.slice text prev t.start ++ (t.original
          ++ assembleTags text (fun j _ => phString j) T1 c t.stop b)) := by
      have hb1 := replaceAll_head_bound '⟦'
        ('T' :: 'A' :: 'G' :: '_' :: (pad3 (c + T1.length) ++ ['⟧']))
        (D ++ RTF.slice text prev t.start)
        (assembleTags text (fun j _ => phString j) T1 c t.stop b) t.original hA
      rw [← phString_cons (c + T1.length)] at hb1
      rw [replaceAll_no_occur t.original (phString_ne_nil (c + T1.length)) hnoB] at hb1
      simp only [List.append_assoc] at hb1
      exact hb1
    simp only [mapsOf, assembleTags, List.foldl_cons, List.append_assoc]
    rw [hstep]
    have hih := ih c t.stop (D ++ RTF.slice text prev t.start ++ t.original)
      (fun u hu => hwf u (List.mem_cons_of_mem t hu))
      (List.chain'_cons'.mp hch).2
      (chain_start_ge_stop t T1 (fun w hw => (hwf w (List.mem_cons_of_mem t hw)).1) hch)
      (by
        intro h
        rcases List.mem_append.mp h with h | h
        · exact hA h
        · rw [hto] at h
          exact hdelim (mem_slice h))
    simp only [List.append_assoc] at hih
    rw [hih]
    congr 1
    rw [hto]
    rw [slice_glue text (Nat.le_of_lt hts) htb hb]
    exact slice_glue text (hprev t (List.mem_cons_self t T1))
      (Nat.le_trans (Nat.le_of_lt hts) htb) hb


/-- The full-text slice is the text. -/
theorem slice_zero_length (text : List Char) :
    RTF.slice text 0 text.length = text := by
  unfold RTF.slice
  rw [List.take_length, List.drop_zero]

/-- C1 (counterexample): the spec claims the mask/unmask round trip is
exact for every text made of well-formed tags, but for the text `<b>`
— a single well-formed tag — two patterns (`<[^>]+>` and
`<[a-z]+[0-9]*\s*/?>`) both report the same span, the double splice
corrupts the masked text, and restoration returns `<b>G_000⟧` instead of
`<b>`. -/
theorem C1_counterexample :
    restore_tags (extract_tags_with_placeholders 0 "<b>".toList).2.text_with_placeholders
      (extract_tags_with_placeholders 0 "<b>".toList).2.tags ≠ "<b>".toList := by
  decide

/-- C1 (amended): the mask/unmask round trip
`restore_tags (extract_tags_with_placeholders text).text_with_placeholders
(extract_tags_with_placeholders text).tags = text` holds — for every
counter state and every number of tags — whenever the detected tag spans
are pairwise disjoint in text order and the text does not contain the
placeholder delimiter `⟦`. -/
theorem C1_roundtrip_disjoint (counter : Nat) (text : List Char)
    (hdisj : List.Chain' (fun a b => a.stop ≤ b.start) (detect_tags text))
    (hdelim : '⟦' ∉ text) :
    restore_tags (extract_tags_with_placeholders counter text).2.text_with_placeholders
      (extract_tags_with_placeholders counter text).2.tags = text := by
  have hwf := detect_tags_wf text
  simp only [extract_tags_with_placeholders]
  by_cases hdet : detect_tags text = []
  · rw [if_pos hdet]
    simp only [restore_tags, List.foldl_nil]
  · rw [if_neg hdet]
    have hwfrev : ∀ t ∈ (detect_tags text).reverse,
        t.start < t.stop ∧ t.stop ≤ text.length := by
      intro t ht
      rw [List.mem_reverse] at ht
      exact ⟨(hwf t ht).1, (hwf t ht).2.1⟩
    have hchrev : List.Chain' (fun a u => u.stop ≤ a.start)
        (detect_tags text).reverse := by
      rw [List.chain'_reverse]
      exact hdisj
    have hmask := maskRev_assemble text (detect_tags text).reverse counter
      text.length [] (le_refl _) hwfrev hchrev
    simp only [List.take_length, List.append_nil, List.reverse_reverse] at hmask
    rw [hmask]
    have hrf := restore_fold text hdelim text.length (le_refl _)
      (detect_tags text) counter 0 []
      (fun t ht => ⟨(hwf t ht).1, (hwf t ht).2.1, (hwf t ht).2.2⟩)
      hdisj (fun t _ => Nat.zero_le _) (by simp)
    simp only [List.nil_append] at hrf
    simp only [restore_tags]
    rw [hrf, slice_zero_length]

/-- C1 witness: a text with two disjoint Wordfast tags satisfies both
hypotheses and round-trips exactly, from any counter state. -/
theorem C1_roundtrip_disjoint_witness :
    List.Chain' (fun a b => a.stop ≤ b.start) (detect_tags "a{1}b{22}c".toList)
    ∧ '⟦' ∉ "a{1}b{22}c".toList
    ∧ restore_tags
        (extract_tags_with_placeholders 7 "a{1}b{22}c".toList).2.text_with_placeholders
        (extract_tags_with_placeholders 7 "a{1}b{22}c".toList).2.tags
      = "a{1}b{22}c".toList := by
  have hch : List.Chain' (fun a b => a.stop ≤ b.start)
      (detect_tags "a{1}b{22}c".toList) := by
    have h : detect_tags "a{1}b{22}c".toList
        = [Tag.mk TagType.wordfast_tag "{1}".toList 1 4,
           Tag.mk TagType.wordfast_tag "{22}".toList 5 9] := by decide
    rw [h, List.chain'_cons]
    exact ⟨by decide, List.chain'_singleton _⟩
  exact ⟨hch, by decide, C1_roundtrip_disjoint 7 "a{1}b{22}c".toList hch (by decide)⟩

end ClaimC1
